import Mathlib

/-!
# StudySync note-ingestion pipeline: a shallow embedding

This file embeds the core of the StudySync backend (note-ingestion
pipeline, materializer, reprocess operation, and the flashcard spaced
repetition update) in Lean and proves properties of the specification
against it.

Modelling conventions:

* Python strings are `List Char`; Python dicts parsed from JSON are
  association lists (duplicate keys allowed, lookup takes the *last*
  binding, matching `json.loads` semantics for duplicate keys).
* JSON numeric literals are modelled as integers (`Int`); the pipeline
  claims under study never depend on fractional numeric values, and the
  float `1.0` default is modelled as the number `1`.
* `datetime` instants are abstract `Nat` tick counts whose unit is one
  day, so `timedelta(days = n)` is `+ n`.
* Python exceptions are values of `PyErr`; `str(e)` is `PyErr.msg`.
* `json.loads` is modelled by a fuel-indexed recursive-descent parser
  over the JSON fragment actually exercised by the pipeline: objects,
  arrays, strings (with the basic backslash escapes, rejecting raw
  control characters as Python's strict mode does), integer literals,
  `true`/`false`/`null`, with interstitial whitespace.  Floats, exponent
  literals and `\u` escapes are outside the modelled fragment.
* `datetime.fromisoformat` is modelled on the version-stable core of its
  grammar: `YYYY-MM-DD[{T| }HH:MM[:SS]][±HH:MM]` with calendar-valid
  field ranges; fractional seconds are outside the modelled fragment.
-/

/-- A JSON value, as produced by the modelled `json.loads`. -/
inductive Json where
  | null : Json
  | bool (b : Bool) : Json
  | num (n : Int) : Json
  | str (s : List Char) : Json
  | arr (items : List Json) : Json
  | obj (fields : List (List Char × Json)) : Json

/-- ASCII whitespace, as stripped by Python `str.strip` / skipped by
`json.loads` (the pipeline never feeds it the more exotic unicode
whitespace). -/
def isWs (c : Char) : Bool :=
  c = ' ' || c = '\t' || c = '\n' || c = '\x0d' || c = '\x0b' || c = '\x0c'

/-- Drop leading whitespace. -/
def skipWs : List Char → List Char
  | [] => []
  | c :: cs => if isWs c then skipWs cs else c :: cs

/-- Python `str.strip()`: drop whitespace at both ends. -/
def pyStrip (cs : List Char) : List Char :=
  ((cs.dropWhile isWs).reverse.dropWhile isWs).reverse

/-- Lookup in a parsed JSON object; the *last* binding wins, matching the
behaviour of a Python dict built by `json.loads` on duplicate keys. -/
def lookupLast (fields : List (List Char × Json)) (k : List Char) : Option Json :=
  match fields.reverse.find? (fun p => p.1 = k) with
  | some p => some p.2
  | none => none

/-- Python truthiness of a JSON-shaped value. -/
def Json.truthy : Json → Bool
  | .null => false
  | .bool b => b
  | .num n => n ≠ 0
  | .str s => !s.isEmpty
  | .arr l => !l.isEmpty
  | .obj f => !f.isEmpty

/-- A Python exception, as raised by the embedded fragment.  The payload
is the text that `str(e)` would produce. -/
inductive PyErr where
  | keyError (k : List Char)
  | attributeError (m : List Char)
  | typeError (m : List Char)

/-- Models `str(e)`.  For `KeyError` Python renders the missing key in repr
quotes: `str(KeyError('front')) = "'front'"`. -/
def PyErr.msg : PyErr → List Char
  | .keyError k => Char.ofNat 39 :: k ++ [Char.ofNat 39]
  | .attributeError m => m
  | .typeError m => m

/-- Models `x.get(k, d)` on a value expected to be a dict: `AttributeError` when
`x` is not a dict. -/
def Json.getD (j : Json) (k : List Char) (d : Json) : Except PyErr Json :=
  match j with
  | .obj f =>
      match lookupLast f k with
      | some v => .ok v
      | none => .ok d
  | _ => .error (.attributeError ("object has no attribute get").data)

/-- Models `x[k]` with a string key: `KeyError` on a dict without the key,
`TypeError` on any non-dict. -/
def Json.getItem (j : Json) (k : List Char) : Except PyErr Json :=
  match j with
  | .obj f =>
      match lookupLast f k with
      | some v => .ok v
      | none => .error (.keyError k)
  | _ => .error (.typeError ("value is not subscriptable by str").data)

/-- Models `for x in v`: lists iterate their items, strings their characters,
dicts their keys; other values raise `TypeError`. -/
def Json.iterate : Json → Except PyErr (List Json)
  | .arr l => .ok l
  | .str s => .ok (s.map (fun c => Json.str [c]))
  | .obj f => .ok (f.map (fun p => Json.str p.1))
  | _ => .error (.typeError ("object is not iterable").data)

/-! ## The modelled `json.loads` -/

/-- Numeric value of a decimal digit character. -/
def digitVal (c : Char) : Nat := c.toNat - 48

/-- Parse a nonempty run of decimal digits. -/
def parseDigits (cs : List Char) : Option (Nat × List Char) :=
  let ds := cs.takeWhile Char.isDigit
  if ds = [] then none
  else some (ds.foldl (fun a c => a * 10 + digitVal c) 0, cs.dropWhile Char.isDigit)

/-- Translate a backslash escape inside a JSON string literal. -/
def unescape (c : Char) : Option Char :=
  if c = '"' then some '"'
  else if c = Char.ofNat 92 then some (Char.ofNat 92)
  else if c = '/' then some '/'
  else if c = 'n' then some '\n'
  else if c = 't' then some '\t'
  else if c = 'r' then some '\x0d'
  else if c = 'b' then some '\x08'
  else if c = 'f' then some '\x0c'
  else none

/-- Parse the body of a JSON string literal (after the opening quote),
returning the decoded characters and the input after the closing quote.
Raw control characters are rejected, as by Python's strict decoder. -/
def parseStrBody : List Char → Option (List Char × List Char)
  | [] => none
  | c :: rest =>
    if c = '"' then some ([], rest)
    else if c = Char.ofNat 92 then
      match rest with
      | [] => none
      | e :: rest2 =>
        match unescape e with
        | none => none
        | some d =>
          match parseStrBody rest2 with
          | none => none
          | some (s, r) => some (d :: s, r)
    else if c.toNat < 32 then none
    else
      match parseStrBody rest with
      | none => none
      | some (s, r) => some (c :: s, r)

mutual

/-- One JSON value (fuel-indexed recursive descent), dispatching on the
first non-whitespace character. -/
def parseVal : Nat → List Char → Option (Json × List Char)
  | 0, _ => none
  | fuel + 1, cs =>
    match skipWs cs with
    | [] => none
    | c :: r =>
      if c = 'n' then
        match r with
        | 'u' :: 'l' :: 'l' :: r2 => some (.null, r2)
        | _ => none
      else if c = 't' then
        match r with
        | 'r' :: 'u' :: 'e' :: r2 => some (.bool true, r2)
        | _ => none
      else if c = 'f' then
        match r with
        | 'a' :: 'l' :: 's' :: 'e' :: r2 => some (.bool false, r2)
        | _ => none
      else if c = '"' then
        match parseStrBody r with
        | none => none
        | some (s, r2) => some (.str s, r2)
      else if c = '[' then
        (if (skipWs r).head? = some ']' then some (.arr [], (skipWs r).tail)
         else
           match parseElems fuel (skipWs r) with
           | none => none
           | some (vs, r2) => some (.arr vs, r2))
      else if c = '{' then
        (if (skipWs r).head? = some '}' then some (.obj [], (skipWs r).tail)
         else
           match parseMembers fuel (skipWs r) with
           | none => none
           | some (fs, r2) => some (.obj fs, r2))
      else if c = '-' then
        match parseDigits r with
        | none => none
        | some (n, r2) => some (.num (-(n : Int)), r2)
      else if c.isDigit then
        match parseDigits (c :: r) with
        | none => none
        | some (n, r2) => some (.num (n : Int), r2)
      else none

/-- Comma-separated array elements up to the closing bracket. -/
def parseElems : Nat → List Char → Option (List Json × List Char)
  | 0, _ => none
  | fuel + 1, cs =>
    match parseVal fuel cs with
    | none => none
    | some (v, r) =>
      match skipWs r with
      | ',' :: r2 =>
        (match parseElems fuel r2 with
         | none => none
         | some (vs, r3) => some (v :: vs, r3))
      | ']' :: r2 => some ([v], r2)
      | _ => none

/-- Comma-separated object members up to the closing brace. -/
def parseMembers : Nat → List Char → Option (List (List Char × Json) × List Char)
  | 0, _ => none
  | fuel + 1, cs =>
    match skipWs cs with
    | '"' :: r =>
      (match parseStrBody r with
       | none => none
       | some (k, r1) =>
         match skipWs r1 with
         | ':' :: r2 =>
           (match parseVal fuel r2 with
            | none => none
            | some (v, r3) =>
              match skipWs r3 with
              | ',' :: r4 =>
                (match parseMembers fuel r4 with
                 | none => none
                 | some (fs, r5) => some ((k, v) :: fs, r5))
              | '}' :: r4 => some ([(k, v)], r4)
              | _ => none)
         | _ => none)
    | _ => none

end

/-- The modelled `json.loads`: parse one JSON document, requiring only
trailing whitespace after it; `none` models `json.JSONDecodeError`. -/
def json_loads (cs : List Char) : Option Json :=
  match parseVal (cs.length + 1) cs with
  | some (v, rest) => if skipWs rest = [] then some v else none
  | none => none

/-! ## The modelled `json.dumps` (default separators) -/

/-- Escape one character of a JSON string for serialization. -/
def escChar (c : Char) : List Char :=
  if c = '"' then [Char.ofNat 92, '"']
  else if c = Char.ofNat 92 then [Char.ofNat 92, Char.ofNat 92]
  else [c]

/-- Serialize a string body with escapes. -/
def serStrChars : List Char → List Char
  | [] => []
  | c :: cs => escChar c ++ serStrChars cs

/-- Serialize a JSON string literal. -/
def serStr (s : List Char) : List Char := '"' :: serStrChars s ++ ['"']

/-- Decimal digits of a natural number, most significant first. -/
def serNat (n : Nat) : List Char :=
  if n = 0 then ['0']
  else ((Nat.digits 10 n).map (fun d => Char.ofNat (48 + d))).reverse

/-- Serialize an integer literal. -/
def serInt (n : Int) : List Char :=
  if n < 0 then '-' :: serNat n.natAbs else serNat n.natAbs

mutual

/-- Models `json.dumps` with its default `", "` / `": "` separators. -/
def serJson : Json → List Char
  | .null => ('n' :: 'u' :: 'l' :: 'l' :: [])
  | .bool true => ('t' :: 'r' :: 'u' :: 'e' :: [])
  | .bool false => ('f' :: 'a' :: 'l' :: 's' :: 'e' :: [])
  | .num n => serInt n
  | .str s => serStr s
  | .arr [] => ('[' :: ']' :: [])
  | .arr (v :: vs) => '[' :: (serJson v ++ serElems vs) ++ [']']
  | .obj [] => ('{' :: '}' :: [])
  | .obj (p :: ps) => '{' :: (serStr p.1 ++ ':' :: ' ' :: serJson p.2 ++ serFields ps) ++ ['}']

/-- Remaining array elements, each preceded by `", "`. -/
def serElems : List Json → List Char
  | [] => []
  | v :: vs => ',' :: ' ' :: serJson v ++ serElems vs

/-- Remaining object members, each preceded by `", "`. -/
def serFields : List (List Char × Json) → List Char
  | [] => []
  | p :: ps => ',' :: ' ' :: serStr p.1 ++ ':' :: ' ' :: serJson p.2 ++ serFields ps

end

/-- Models `json.dumps` at the `String` boundary used by the materializer. -/
def json_dumps (j : Json) : List Char := serJson j

/-! ## The response normalizer: `NoteProcessor._parse_json_response` -/

/-- The span matched by `re.search(r'\x7b[\s\S]*\x7d', text)`: from the
first `\x7b` that has some `\x7d` after it, greedily to the last `\x7d`
of the text. -/
def braceSpan (cs : List Char) : Option (List Char) :=
  match cs.findIdx? (fun c => c = '{') with
  | none => none
  | some p =>
    match cs.reverse.findIdx? (fun c => c = '}') with
    | none => none
    | some q =>
      let lastIdx := cs.length - 1 - q
      if p < lastIdx then some ((cs.drop p).take (lastIdx - p + 1)) else none

/-- Models `NoteProcessor._parse_json_response`: strip; drop a leading
triple-backtick fence marker (optionally tagged `json`) and a trailing
closing fence; strip; try `json.loads`; on failure try the greedy
brace-to-brace span; on failure return the empty dict.  Total: never
raises. -/
def parse_json_response (text : List Char) : Json :=
  let t1 := pyStrip text
  let t2 :=
    if ("```json").data.isPrefixOf t1 then t1.drop 7
    else if ("```").data.isPrefixOf t1 then t1.drop 3
    else t1
  let t3 := if ("```").data.isSuffixOf t2 then t2.take (t2.length - 3) else t2
  let t4 := pyStrip t3
  match json_loads t4 with
  | some v => v
  | none =>
    match braceSpan t4 with
    | none => Json.obj []
    | some sub =>
      match json_loads sub with
      | some v => v
      | none => Json.obj []

/-! ## The modelled `datetime.fromisoformat` -/

/-- A parsed datetime; `offMin` is the UTC offset in minutes when one was
given. -/
structure PyDateTime where
  year : Nat
  month : Nat
  day : Nat
  hour : Nat
  minute : Nat
  second : Nat
  offMin : Option Int
deriving DecidableEq

/-- Gregorian leap year. -/
def isLeap (y : Nat) : Bool := y % 4 = 0 && (y % 100 ≠ 0 || y % 400 = 0)

/-- Days in a month, with the leap rule for February. -/
def daysInMonth (y m : Nat) : Nat :=
  if m = 2 then (if isLeap y then 29 else 28)
  else if m = 4 || m = 6 || m = 9 || m = 11 then 30
  else 31

/-- Parse exactly two decimal digits. -/
def d2 : List Char → Option (Nat × List Char)
  | a :: b :: r =>
    if a.isDigit && b.isDigit then some (digitVal a * 10 + digitVal b, r) else none
  | _ => none

/-- Parse exactly four decimal digits. -/
def d4 : List Char → Option (Nat × List Char)
  | a :: b :: c :: d :: r =>
    if a.isDigit && b.isDigit && c.isDigit && d.isDigit then
      some (((digitVal a * 10 + digitVal b) * 10 + digitVal c) * 10 + digitVal d, r)
    else none
  | _ => none

/-- Optional `±HH:MM` offset followed by end of input. -/
def parseOffEnd (cs : List Char) : Option (Option Int) :=
  match cs with
  | [] => some none
  | sign :: r =>
    if sign = '+' || sign = '-' then
      match d2 r with
      | some (oh, ':' :: r2) =>
        (match d2 r2 with
         | some (om, []) =>
           if oh ≤ 23 && om ≤ 59 then
             let total : Int := (oh * 60 + om : Nat)
             some (some (if sign = '-' then -total else total))
           else none
         | _ => none)
      | _ => none
    else none

/-- Optional `:SS` then optional offset, then end of input. -/
def parseSecOffEnd (h mi : Nat) (y mo dy : Nat) (cs : List Char) : Option PyDateTime :=
  match cs with
  | ':' :: r =>
    (match d2 r with
     | some (s, r2) =>
       if s ≤ 59 then
         match parseOffEnd r2 with
         | some off => some ⟨y, mo, dy, h, mi, s, off⟩
         | none => none
       else none
     | none => none)
  | _ =>
    match parseOffEnd cs with
    | some off => some ⟨y, mo, dy, h, mi, 0, off⟩
    | none => none

/-- The modelled `datetime.fromisoformat`: the version-stable grammar
`YYYY-MM-DD[{T| }HH:MM[:SS]][±HH:MM]` with calendar-valid ranges;
`none` models `ValueError`. -/
def fromisoformat (cs : List Char) : Option PyDateTime :=
  match d4 cs with
  | some (y, '-' :: r1) =>
    (match d2 r1 with
     | some (mo, '-' :: r2) =>
       (match d2 r2 with
        | some (dy, rest) =>
          if 1 ≤ y && 1 ≤ mo && mo ≤ 12 && 1 ≤ dy && dy ≤ daysInMonth y mo then
            match rest with
            | [] => some ⟨y, mo, dy, 0, 0, 0, none⟩
            | sep :: r3 =>
              if sep = 'T' || sep = ' ' then
                match d2 r3 with
                | some (h, ':' :: r4) =>
                  (match d2 r4 with
                   | some (mi, r5) =>
                     if h ≤ 23 && mi ≤ 59 then parseSecOffEnd h mi y mo dy r5 else none
                   | none => none)
                | _ => none
              else none
          else none
        | none => none)
     | _ => none)
  | _ => none

/-- Models `s.replace("Z", "+00:00")`: every occurrence of the single character
`Z` becomes `+00:00`. -/
def replaceZ : List Char → List Char
  | [] => []
  | 'Z' :: r => '+' :: '0' :: '0' :: ':' :: '0' :: '0' :: replaceZ r
  | c :: r => c :: replaceZ r

/-- The date-acceptance test both the Event Extractor stage and the
materializer apply to a date string. -/
def dateOkStr (s : List Char) : Bool := (fromisoformat (replaceZ s)).isSome

/-! ## Extraction stages and pipeline (`NoteProcessor.process_note`) -/

/-- Is this value a Python `str`? -/
def Json.isStr : Json → Bool
  | .str _ => true
  | _ => false

/-- Models evaluating
`", ".join(key_concepts[:10]) if key_concepts else "main topics"` inside
the flashcard/question prompt construction: a falsy value or a string
joins fine; a list joins iff its first ten items are all strings; any
other truthy value raises `TypeError`. -/
def conceptsCheck (kc : Json) : Except PyErr Unit :=
  if kc.truthy = false then .ok ()
  else
    match kc with
    | .str _ => .ok ()
    | .arr l =>
      if (l.take 10).all Json.isStr then .ok ()
      else .error (.typeError ("sequence item: expected str instance").data)
    | _ => .error (.typeError ("can only join an iterable of str").data)

/-- The per-item test-and-filter step of `NoteProcessor._extract_events`:
`event.get("date", "")`, skip when falsy, otherwise
`datetime.fromisoformat(date_str.replace("Z", "+00:00"))` under an
`except (ValueError, TypeError)` that skips the item.  `AttributeError`
(non-dict item, or a truthy non-string date) is not caught. -/
def evCheck (ev : Json) : Except PyErr Bool :=
  match ev with
  | .obj f =>
    (match lookupLast f ("date").data with
     | none => .ok false
     | some d =>
       if d.truthy = false then .ok false
       else
         match d with
         | .str s => .ok (dateOkStr s)
         | _ => .error (.attributeError ("object has no attribute replace").data))
  | _ => .error (.attributeError ("object has no attribute get").data)

/-- The filtering loop of `NoteProcessor._extract_events` over the
candidate `events` array. -/
def validEventsLoop : List Json → Except PyErr (List Json)
  | [] => .ok []
  | ev :: rest => do
    let b ← evCheck ev
    let tail ← validEventsLoop rest
    pure (if b then ev :: tail else tail)

/-- The result bundle of `NoteProcessor.process_note`. -/
structure PipeResult where
  processed_note : Json
  flashcards : Json
  study_questions : Json
  extracted_events : List Json

/-- Models `NoteProcessor.process_note`, with the four raw model completions as
inputs (one per stage; a transport failure of a model call is outside
this function and modelled separately).  Each stage normalizes its raw
completion with `parse_json_response` and reads its named field with an
empty-list default. -/
def process_note (rawSumm rawFc rawQ rawEv : List Char) : Except PyErr PipeResult := do
  let pn := parse_json_response rawSumm
  let kc ← pn.getD ("key_concepts").data (Json.arr [])
  let _ ← conceptsCheck kc
  let pFc := parse_json_response rawFc
  let fcs ← pFc.getD ("flashcards").data (Json.arr [])
  let _ ← conceptsCheck kc
  let pQ := parse_json_response rawQ
  let qs ← pQ.getD ("questions").data (Json.arr [])
  let pEv := parse_json_response rawEv
  let evJ ← pEv.getD ("events").data (Json.arr [])
  let evItems ← evJ.iterate
  let evs ← validEventsLoop evItems
  pure ⟨pn, fcs, qs, evs⟩

/-! ## Durable records and the store -/

/-- Note lifecycle status. -/
inductive Status where
  | pending
  | processing
  | completed
  | failed
deriving DecidableEq

/-- The `notes` row for the note under processing. -/
structure NoteRec where
  status : Status
  processed_summary : Option Json
  key_concepts : Option (List Char)
  knowledge_gaps : Option (List Char)
  error_message : Option (List Char)
  processed_at : Option Nat

/-- A `flashcards` row.  Review counters start at the column defaults. -/
structure FlashRec where
  front : Json
  back : Json
  difficulty : Json
  times_reviewed : Nat := 0
  times_correct : Nat := 0
  last_reviewed : Option Nat := none
  next_review : Option Nat := none

/-- A `study_questions` row. -/
structure QuestionRec where
  question : Json
  suggested_answer : Json
  question_type : Json

/-- An `events` row; `source_note_id = some 0` marks an event extracted
from the (single, id-0) note under study, `none` a manual event. -/
structure EventRec where
  title : Json
  event_type : Json
  event_date : PyDateTime
  confidence : Json
  source_note_id : Option Nat
  google_event_id : Option (List Char) := none
  synced_to_calendar : Bool := false

/-- The durable store visible to one note's processing runs. -/
structure DB where
  note : NoteRec
  flashcards : List FlashRec
  study_questions : List QuestionRec
  events : List EventRec

/-- The store right after upload: note created in `processing` with empty
generated fields, no dependent records. -/
def uploadDB : DB :=
  { note := { status := .processing, processed_summary := none, key_concepts := none,
              knowledge_gaps := none, error_message := none, processed_at := none },
    flashcards := [], study_questions := [], events := [] }

/-! ## The materializer inside `process_note_task`

Session semantics: every write below is pending in the SQLAlchemy
session; the happy path commits them all at the end, and the failure
path's `except` block also ends in `db.commit()`, which flushes whatever
was pending.  The `Except` values therefore carry the partial store
alongside the exception. -/

/-- Note field updates from the summarizer bundle:
`result["processed_note"]["summary" | "key_concepts" | "gaps_or_unclear"]`,
each a plain subscript that raises `KeyError` when absent, the latter two
stored through `json.dumps`. -/
def matNoteFields (db : DB) (pn : Json) : Except (PyErr × DB) DB :=
  match pn.getItem ("summary").data with
  | .error e => .error (e, db)
  | .ok summ =>
    let db1 := { db with note := { db.note with processed_summary := some summ } }
    match pn.getItem ("key_concepts").data with
    | .error e => .error (e, db1)
    | .ok kcv =>
      let db2 := { db1 with note := { db1.note with key_concepts := some (json_dumps kcv) } }
      match pn.getItem ("gaps_or_unclear").data with
      | .error e => .error (e, db2)
      | .ok gv => .ok { db2 with note := { db2.note with knowledge_gaps := some (json_dumps gv) } }

/-- The flashcard insertion loop: `fc["front"]`, `fc["back"]`,
`fc.get("difficulty", "medium")`; a raise aborts with the rows inserted
so far still pending. -/
def matFlashcards (db : DB) : List Json → Except (PyErr × DB) DB
  | [] => .ok db
  | fc :: rest =>
    match fc.getItem ("front").data with
    | .error e => .error (e, db)
    | .ok front =>
      match fc.getItem ("back").data with
      | .error e => .error (e, db)
      | .ok back =>
        match fc.getD ("difficulty").data (Json.str ("medium").data) with
        | .error e => .error (e, db)
        | .ok diff =>
          matFlashcards
            { db with flashcards := db.flashcards ++ [{ front := front, back := back, difficulty := diff }] }
            rest

/-- The study question insertion loop: `sq["question"]`,
`sq["suggested_answer"]`, `sq.get("question_type", "conceptual")`. -/
def matQuestions (db : DB) : List Json → Except (PyErr × DB) DB
  | [] => .ok db
  | sq :: rest =>
    match sq.getItem ("question").data with
    | .error e => .error (e, db)
    | .ok q =>
      match sq.getItem ("suggested_answer").data with
      | .error e => .error (e, db)
      | .ok ans =>
        match sq.getD ("question_type").data (Json.str ("conceptual").data) with
        | .error e => .error (e, db)
        | .ok qt =>
          matQuestions
            { db with study_questions := db.study_questions ++ [{ question := q, suggested_answer := ans, question_type := qt }] }
            rest

/-- One iteration of the event insertion loop, under
`except (ValueError, KeyError): continue`: a missing key or an
unparsable date skips the item (`none`); anything else raises. -/
def mkEventStep (ev : Json) : Except PyErr (Option EventRec) :=
  match ev.getItem ("date").data with
  | .error (.keyError _) => .ok none
  | .error e => .error e
  | .ok d =>
    match d with
    | .str s =>
      (match fromisoformat (replaceZ s) with
       | none => .ok none
       | some dt =>
         match ev.getItem ("title").data with
         | .error (.keyError _) => .ok none
         | .error e => .error e
         | .ok title =>
           match ev.getItem ("event_type").data with
           | .error (.keyError _) => .ok none
           | .error e => .error e
           | .ok etype =>
             match ev.getD ("confidence").data (Json.num 1) with
             | .error e => .error e
             | .ok conf =>
               .ok (some { title := title, event_type := etype, event_date := dt,
                           confidence := conf, source_note_id := some 0 }))
    | _ => .error (.attributeError ("object has no attribute replace").data)

/-- The event insertion loop over the stage's already-filtered items. -/
def matEvents (db : DB) : List Json → Except (PyErr × DB) DB
  | [] => .ok db
  | ev :: rest =>
    match mkEventStep ev with
    | .error e => .error (e, db)
    | .ok none => matEvents db rest
    | .ok (some r) => matEvents { db with events := db.events ++ [r] } rest

/-- Mark the run failed: the `except` block of `process_note_task` sets
`status = "failed"` and `error_message = str(e)[:500]` on top of whatever
writes were already pending, then commits. -/
def taskFail (db : DB) (e : PyErr) : DB :=
  { db with note := { db.note with status := .failed, error_message := some ((PyErr.msg e).take 500) } }

/-- The background task `process_note_task` for the note under study,
with the four raw model completions as inputs.  A transport-level model
failure is modelled separately (`process_note_task_transport_fail`). -/
def process_note_task (db : DB) (rawSumm rawFc rawQ rawEv : List Char) (now : Nat) : DB :=
  match process_note rawSumm rawFc rawQ rawEv with
  | .error e => taskFail db e
  | .ok res =>
    match matNoteFields db res.processed_note with
    | .error (e, dbp) => taskFail dbp e
    | .ok db1 =>
      match res.flashcards.iterate with
      | .error e => taskFail db1 e
      | .ok fcItems =>
        match matFlashcards db1 fcItems with
        | .error (e, dbp) => taskFail dbp e
        | .ok db2 =>
          match res.study_questions.iterate with
          | .error e => taskFail db2 e
          | .ok qItems =>
            match matQuestions db2 qItems with
            | .error (e, dbp) => taskFail dbp e
            | .ok db3 =>
              match matEvents db3 res.extracted_events with
              | .error (e, dbp) => taskFail dbp e
              | .ok db4 =>
                { db4 with note := { db4.note with status := .completed, processed_at := some now } }

/-- Models `process_note_task` when the model-call transport itself raises, with
`emsg` the exception text: no stage output exists, the `except` block
marks the run failed. -/
def process_note_task_transport_fail (db : DB) (emsg : List Char) : DB :=
  { db with note := { db.note with status := .failed, error_message := some (emsg.take 500) } }

/-- Models `reprocess_note` (the router operation, after its existence checks):
delete the note's flashcards, study questions and extracted events, reset
status to `processing`, clear error and generated fields.  The processed
timestamp is not touched. -/
def reprocess_note (db : DB) : DB :=
  { note :=
      { db.note with
        status := .processing
        error_message := none
        processed_summary := none
        key_concepts := none
        knowledge_gaps := none },
    flashcards := [],
    study_questions := [],
    events := db.events.filter (fun ev => ev.source_note_id ≠ some 0) }

/-! ## Flashcard review and manual events -/

/-- A review rating (`FlashcardReview.difficulty`). -/
inductive Difficulty where
  | easy
  | medium
  | hard
deriving DecidableEq

/-- Models `Difficulty.value`. -/
def Difficulty.val : Difficulty → List Char
  | .easy => ("easy").data
  | .medium => ("medium").data
  | .hard => ("hard").data

/-- Models `review_flashcard` (the spaced repetition update): increment
times-reviewed, stamp last-reviewed; for `easy`/`medium` increment
times-correct *first* and then take
`min(cap, (times_correct + 1) * step)` days on the incremented counter;
for `hard` schedule one day out; store the rating as the new difficulty
tag.  Time unit: days. -/
def review_flashcard (fc : FlashRec) (rating : Difficulty) (now : Nat) : FlashRec :=
  let fc1 := { fc with times_reviewed := fc.times_reviewed + 1, last_reviewed := some now }
  match rating with
  | .easy =>
    let fc2 := { fc1 with times_correct := fc1.times_correct + 1 }
    { fc2 with next_review := some (now + min 30 ((fc2.times_correct + 1) * 3)),
               difficulty := .str (Difficulty.easy.val) }
  | .medium =>
    let fc2 := { fc1 with times_correct := fc1.times_correct + 1 }
    { fc2 with next_review := some (now + min 14 ((fc2.times_correct + 1) * 1)),
               difficulty := .str (Difficulty.medium.val) }
  | .hard =>
    { fc1 with next_review := some (now + 1),
               difficulty := .str (Difficulty.hard.val) }

/-- Models `create_event` (the manual-event route): a manual event is stored
with `confidence = 1.0` and no source note. -/
def create_event (db : DB) (title etype : Json) (edate : PyDateTime) : DB :=
  { db with events := db.events ++ [{ title := title, event_type := etype, event_date := edate,
                                      confidence := Json.num 1, source_note_id := none }] }

/-! ## Shape predicates and record builders used by the statements -/

/-- Is this value a dict? -/
def isObjB : Json → Bool
  | .obj _ => true
  | _ => false

/-- Field access on a dict, `none` when absent or not a dict. -/
def getOpt (j : Json) (k : List Char) : Option Json :=
  match j with
  | .obj f => lookupLast f k
  | _ => none

/-- Field access with `null` standing in for an absent field. -/
def getKey (j : Json) (k : List Char) : Json := (getOpt j k).getD Json.null

/-- Field access with the stage's empty-list default. -/
def getFieldD (j : Json) (k : List Char) : Json := (getOpt j k).getD (Json.arr [])

/-- The list of items a stage field contributes: the array under the
field, or `[]` when the field is absent. -/
def fieldItems (j : Json) (k : List Char) : List Json :=
  match getOpt j k with
  | some (.arr l) => l
  | _ => []

/-- Does the dict `j` have the key `k`? -/
def hasKey (j : Json) (k : List Char) : Bool := (getOpt j k).isSome

/-- The characters of a JSON string, `[]` otherwise. -/
def getStr : Json → List Char
  | .str s => s
  | _ => []

/-- The `key_concepts` value can be interpolated into the
flashcard/question prompts without a `TypeError`: it is falsy, a string,
or a list whose first ten items are strings. -/
def conceptsOkB (kc : Json) : Bool :=
  !kc.truthy || kc.isStr ||
    (match kc with
     | .arr l => (l.take 10).all Json.isStr
     | _ => false)

/-- The summarizer bundle is shaped as the materializer requires: a dict
carrying `summary`, `key_concepts` and `gaps_or_unclear`, with a
prompt-interpolable `key_concepts`. -/
def wfSummOut (p : Json) : Bool :=
  isObjB p && hasKey p ("summary").data && hasKey p ("key_concepts").data &&
    hasKey p ("gaps_or_unclear").data && conceptsOkB (getKey p ("key_concepts").data)

/-- A flashcard item the materializer accepts: a dict with `front` and
`back`. -/
def wfFcItemB (fc : Json) : Bool := hasKey fc ("front").data && hasKey fc ("back").data

/-- A question item the materializer accepts: a dict with `question` and
`suggested_answer`. -/
def wfQItemB (sq : Json) : Bool :=
  hasKey sq ("question").data && hasKey sq ("suggested_answer").data

/-- An event candidate the stage filter can process without raising: a
dict whose `date` field is absent, a string, or falsy. -/
def wfEvDateB (ev : Json) : Bool :=
  match ev with
  | .obj f =>
    (match lookupLast f ("date").data with
     | none => true
     | some d => d.isStr || !d.truthy)
  | _ => false

/-- An event candidate whose date field holds a string accepted by the
date validation (the stage filter keeps exactly these, among the
processable candidates). -/
def dateOkB (ev : Json) : Bool :=
  match ev with
  | .obj f =>
    (match lookupLast f ("date").data with
     | some (.str s) => dateOkStr s
     | _ => false)
  | _ => false

/-- An event item well-formed for materialization: processable date plus
`title` and `event_type` keys. -/
def wfEvItemB (ev : Json) : Bool :=
  wfEvDateB ev && hasKey ev ("title").data && hasKey ev ("event_type").data

/-- A stage payload whose `field`, if present, is an array of items each
satisfying `itemOk`. -/
def wfListField (p : Json) (field : List Char) (itemOk : Json → Bool) : Bool :=
  isObjB p &&
    (match getOpt p field with
     | none => true
     | some (.arr l) => l.all itemOk
     | some _ => false)

/-- The flashcard row the materializer builds from a well-formed item. -/
def mkFlashRec (fc : Json) : FlashRec :=
  { front := getKey fc ("front").data, back := getKey fc ("back").data,
    difficulty :=
      match getOpt fc ("difficulty").data with
      | some v => v
      | none => Json.str ("medium").data }

/-- The study question row the materializer builds from a well-formed
item. -/
def mkQuestionRec (sq : Json) : QuestionRec :=
  { question := getKey sq ("question").data,
    suggested_answer := getKey sq ("suggested_answer").data,
    question_type :=
      match getOpt sq ("question_type").data with
      | some v => v
      | none => Json.str ("conceptual").data }

/-- Placeholder datetime; never observed from a well-formed event item. -/
def dummyDT : PyDateTime := ⟨1, 1, 1, 0, 0, 0, none⟩

/-- The event row the materializer builds from an item that passed date
validation and carries `title` and `event_type`. -/
def mkEventRec (ev : Json) : EventRec :=
  { title := getKey ev ("title").data, event_type := getKey ev ("event_type").data,
    event_date := (fromisoformat (replaceZ (getStr (getKey ev ("date").data)))).getD dummyDT,
    confidence :=
      match getOpt ev ("confidence").data with
      | some v => v
      | none => Json.num 1,
    source_note_id := some 0 }

/-! ## Reachable stores

One sequential trace of the modelled operations: the note is created by
an upload; each time it is (re)placed in `processing`, its queued
background run executes next (concurrent duplicate runs for one note are
not modelled; the source itself has no mutual exclusion there). -/

/-- Stores reachable for one note through upload, background processing
runs, and reprocess resets. -/
inductive Reach : DB → Prop where
  | upload : Reach uploadDB
  | task (db : DB) (r1 r2 r3 r4 : List Char) (now : Nat) (h : Reach db)
      (hs : db.note.status = .processing) : Reach (process_note_task db r1 r2 r3 r4 now)
  | transport (db : DB) (emsg : List Char) (h : Reach db)
      (hs : db.note.status = .processing) : Reach (process_note_task_transport_fail db emsg)
  | reproc (db : DB) (h : Reach db) : Reach (reprocess_note db)

/-! ## Concrete model completions used by witnesses and counterexamples -/

/-- A well-formed summarizer completion. -/
def rSummGood : List Char :=
  ("\x7b\"summary\": \"s\", \"key_concepts\": [\"a\", \"b\"], \"gaps_or_unclear\": []\x7d").data

/-- A well-formed flashcard completion with one card. -/
def rFcGood : List Char :=
  ("\x7b\"flashcards\": [\x7b\"front\": \"f1\", \"back\": \"b1\", \"difficulty\": \"easy\"\x7d]\x7d").data

/-- A flashcard completion whose second item lacks `front`. -/
def rFcBad : List Char :=
  ("\x7b\"flashcards\": [\x7b\"front\": \"f1\", \"back\": \"b1\"\x7d, \x7b\"back\": \"only\"\x7d]\x7d").data

/-- A well-formed question completion with one question. -/
def rQGood : List Char :=
  ("\x7b\"questions\": [\x7b\"question\": \"q1\", \"suggested_answer\": \"a1\"\x7d]\x7d").data

/-- A well-formed event completion: one valid-date event, one
invalid-date event. -/
def rEvGood : List Char :=
  ("\x7b\"events\": [\x7b\"title\": \"Exam\", \"event_type\": \"exam\", \"date\": \"2025-05-01T09:00:00\", \"confidence\": 1\x7d, \x7b\"title\": \"Bad\", \"event_type\": \"exam\", \"date\": \"not-a-date\"\x7d]\x7d").data

/-- The store after a fully successful run on the uploaded note. -/
def dbGood : DB := process_note_task uploadDB rSummGood rFcGood rQGood rEvGood 7

/-- The store after reprocessing the successful note and re-running with
the flashcard completion whose second item lacks `front`. -/
def dbReproFail : DB :=
  process_note_task (reprocess_note dbGood) rSummGood rFcBad rQGood rEvGood 9

/-- A question completion whose only item lacks `suggested_answer`. -/
def rQBad : List Char :=
  ("\x7b\"questions\": [\x7b\"question\": \"q1\"\x7d]\x7d").data

/-- The parsed form of the well-formed flashcard item of `rFcBad`. -/
def fcGoodItem : Json :=
  Json.obj [(("front").data, Json.str ("f1").data), (("back").data, Json.str ("b1").data)]

/-- A flashcard with two correct reviews, as in the claimed example. -/
def fcTc2 : FlashRec :=
  { front := Json.str ("f").data, back := Json.str ("b").data,
    difficulty := Json.str ("medium").data, times_reviewed := 5, times_correct := 2 }

/-! ## Well-formedness and fuel bounds for the round-trip theorem -/

mutual

/-- A JSON value in the modelled fragment: every string (and key) is
free of control characters, so its serialization needs no `\u` escapes. -/
def Json.wfB : Json → Bool
  | .null => true
  | .bool _ => true
  | .num _ => true
  | .str s => s.all (fun c => 32 ≤ c.toNat)
  | .arr l => Json.wfList l
  | .obj f => Json.wfFields f

/-- The conjunction of `wfB` over array items. -/
def Json.wfList : List Json → Bool
  | [] => true
  | j :: r => j.wfB && Json.wfList r

/-- The conjunction of `wfB` over object members. -/
def Json.wfFields : List (List Char × Json) → Bool
  | [] => true
  | p :: r => p.1.all (fun c => 32 ≤ c.toNat) && p.2.wfB && Json.wfFields r

end

mutual

/-- Fuel sufficient for `parseVal` to parse this value. -/
def needed : Json → Nat
  | .null => 1
  | .bool _ => 1
  | .num _ => 1
  | .str _ => 1
  | .arr [] => 1
  | .arr (v :: vs) => 1 + neededElems (v :: vs)
  | .obj [] => 1
  | .obj (p :: ps) => 1 + neededMembers (p :: ps)

/-- Fuel sufficient for `parseElems` on this element list. -/
def neededElems : List Json → Nat
  | [] => 0
  | v :: vs => 1 + needed v + neededElems vs

/-- Fuel sufficient for `parseMembers` on this member list. -/
def neededMembers : List (List Char × Json) → Nat
  | [] => 0
  | p :: ps => 1 + needed p.2 + neededMembers ps

end

/-- The serialized elements of a nonempty array, between the brackets. -/
def serSeq : List Json → List Char
  | [] => []
  | v :: vs => serJson v ++ serElems vs

/-- The serialized members of a nonempty object, between the braces. -/
def serMem : List (List Char × Json) → List Char
  | [] => []
  | p :: ps => serStr p.1 ++ ':' :: ' ' :: serJson p.2 ++ serFields ps

/-! # Theorems -/

/-- Structural induction for `Json` (hand-rolled: the type nests `List`). -/
theorem Json.my_ind (motive : Json → Prop)
    (h1 : motive .null) (h2 : ∀ b, motive (.bool b)) (h3 : ∀ n, motive (.num n))
    (h4 : ∀ s, motive (.str s))
    (h5 : ∀ l, (∀ j ∈ l, motive j) → motive (.arr l))
    (h6 : ∀ f, (∀ p ∈ f, motive p.2) → motive (.obj f)) : ∀ j, motive j
  | .null => h1
  | .bool b => h2 b
  | .num n => h3 n
  | .str s => h4 s
  | .arr l => h5 l (fun j hj =>
      have : sizeOf j < sizeOf (Json.arr l) := by
        have := List.sizeOf_lt_of_mem hj
        simp only [Json.arr.sizeOf_spec]
        omega
      Json.my_ind motive h1 h2 h3 h4 h5 h6 j)
  | .obj f => h6 f (fun p hp =>
      have hm : sizeOf p < sizeOf f := List.sizeOf_lt_of_mem hp
      have hp2 : sizeOf p.2 < sizeOf p := by
        obtain ⟨a, b⟩ := p
        simp only [Prod.mk.sizeOf_spec]
        omega
      have : sizeOf p.2 < 1 + sizeOf f := by omega
      Json.my_ind motive h1 h2 h3 h4 h5 h6 p.2)
termination_by j => sizeOf j

/-! ## C3: flashcard review scheduling -/

/-- C3 counterexample: the claim computes the interval from the
*pre-increment* times-correct value and predicts now + 9 days for
`times_correct = 2`, rating `easy`; the code increments first and
schedules now + 12 days. -/
theorem C3_counterexample_easy_times_correct_two :
    (review_flashcard fcTc2 Difficulty.easy 100).next_review = some 112 ∧
    (review_flashcard fcTc2 Difficulty.easy 100).next_review ≠ some 109 ∧
    (review_flashcard fcTc2 Difficulty.easy 100).times_correct = 3 := by
  refine ⟨rfl, ?_, rfl⟩
  intro h
  simp [review_flashcard, fcTc2] at h

/-- C3 amended: every review increments times-reviewed, stamps
last-reviewed, and stores the rating as the difficulty tag; `easy` and
`medium` increment times-correct first and schedule
`min(cap, (times_correct_new + 1) * step)` days out — that is,
`min(cap, (times_correct_old + 2) * step)` — while `hard` schedules one
day out and leaves times-correct unchanged. -/
theorem C3_corrected_post_increment_schedule (fc : FlashRec) (now : Nat) :
    (∀ rating, (review_flashcard fc rating now).times_reviewed = fc.times_reviewed + 1 ∧
      (review_flashcard fc rating now).last_reviewed = some now ∧
      (review_flashcard fc rating now).difficulty = Json.str rating.val) ∧
    ((review_flashcard fc .easy now).times_correct = fc.times_correct + 1 ∧
      (review_flashcard fc .easy now).next_review = some (now + min 30 ((fc.times_correct + 2) * 3))) ∧
    ((review_flashcard fc .medium now).times_correct = fc.times_correct + 1 ∧
      (review_flashcard fc .medium now).next_review = some (now + min 14 ((fc.times_correct + 2) * 1))) ∧
    ((review_flashcard fc .hard now).times_correct = fc.times_correct ∧
      (review_flashcard fc .hard now).next_review = some (now + 1)) := by
  refine ⟨fun rating => ?_, ⟨rfl, rfl⟩, ⟨rfl, rfl⟩, ⟨rfl, rfl⟩⟩
  cases rating <;> exact ⟨rfl, rfl, rfl⟩

/-! ## Frame lemmas for the materializer -/

/-- The function `matNoteFields` touches only the note's three summary fields, in both
outcomes. -/
theorem matNoteFields_frame (db : DB) (pn : Json) :
    (∀ db', matNoteFields db pn = .ok db' →
      db'.note.status = db.note.status ∧ db'.note.error_message = db.note.error_message ∧
      db'.note.processed_at = db.note.processed_at ∧ db'.flashcards = db.flashcards ∧
      db'.study_questions = db.study_questions ∧ db'.events = db.events) ∧
    (∀ e dbp, matNoteFields db pn = .error (e, dbp) →
      dbp.note.status = db.note.status ∧ dbp.note.error_message = db.note.error_message ∧
      dbp.note.processed_at = db.note.processed_at ∧ dbp.flashcards = db.flashcards ∧
      dbp.study_questions = db.study_questions ∧ dbp.events = db.events) := by
  unfold matNoteFields
  constructor
  · intro db' h
    repeat' split at h
    all_goals (try cases h)
    all_goals exact ⟨rfl, rfl, rfl, rfl, rfl, rfl⟩
  · intro e dbp h
    repeat' split at h
    all_goals (try cases h)
    all_goals exact ⟨rfl, rfl, rfl, rfl, rfl, rfl⟩

/-- The function `matFlashcards` only appends flashcard rows, in both outcomes. -/
theorem matFlashcards_frame (items : List Json) : ∀ db : DB,
    (∀ db', matFlashcards db items = .ok db' →
      db'.note = db.note ∧ db'.study_questions = db.study_questions ∧ db'.events = db.events) ∧
    (∀ e dbp, matFlashcards db items = .error (e, dbp) →
      dbp.note = db.note ∧ dbp.study_questions = db.study_questions ∧ dbp.events = db.events) := by
  induction items with
  | nil =>
    intro db
    constructor
    · intro db' h
      unfold matFlashcards at h
      simp only [Except.ok.injEq] at h
      subst h
      exact ⟨rfl, rfl, rfl⟩
    · intro e dbp h
      unfold matFlashcards at h
      cases h
  | cons fc rest ih =>
    intro db
    constructor
    · intro db' h
      unfold matFlashcards at h
      repeat' split at h
      all_goals (try cases h)
      all_goals (have hres := (ih _).1 db' h; exact hres)
    · intro e dbp h
      unfold matFlashcards at h
      repeat' split at h
      all_goals (try cases h)
      all_goals (try exact ⟨rfl, rfl, rfl⟩)
      all_goals (have hres := (ih _).2 e dbp h; exact hres)

/-- The function `matQuestions` only appends study question rows, in both outcomes. -/
theorem matQuestions_frame (items : List Json) : ∀ db : DB,
    (∀ db', matQuestions db items = .ok db' →
      db'.note = db.note ∧ db'.flashcards = db.flashcards ∧ db'.events = db.events) ∧
    (∀ e dbp, matQuestions db items = .error (e, dbp) →
      dbp.note = db.note ∧ dbp.flashcards = db.flashcards ∧ dbp.events = db.events) := by
  induction items with
  | nil =>
    intro db
    constructor
    · intro db' h
      unfold matQuestions at h
      simp only [Except.ok.injEq] at h
      subst h
      exact ⟨rfl, rfl, rfl⟩
    · intro e dbp h
      unfold matQuestions at h
      cases h
  | cons sq rest ih =>
    intro db
    constructor
    · intro db' h
      unfold matQuestions at h
      repeat' split at h
      all_goals (try cases h)
      all_goals (have hres := (ih _).1 db' h; exact hres)
    · intro e dbp h
      unfold matQuestions at h
      repeat' split at h
      all_goals (try cases h)
      all_goals (try exact ⟨rfl, rfl, rfl⟩)
      all_goals (have hres := (ih _).2 e dbp h; exact hres)

/-- The function `matEvents` only appends event rows, in both outcomes. -/
theorem matEvents_frame (items : List Json) : ∀ db : DB,
    (∀ db', matEvents db items = .ok db' →
      db'.note = db.note ∧ db'.flashcards = db.flashcards ∧
      db'.study_questions = db.study_questions) ∧
    (∀ e dbp, matEvents db items = .error (e, dbp) →
      dbp.note = db.note ∧ dbp.flashcards = db.flashcards ∧
      dbp.study_questions = db.study_questions) := by
  induction items with
  | nil =>
    intro db
    constructor
    · intro db' h
      unfold matEvents at h
      simp only [Except.ok.injEq] at h
      subst h
      exact ⟨rfl, rfl, rfl⟩
    · intro e dbp h
      unfold matEvents at h
      cases h
  | cons ev rest ih =>
    intro db
    constructor
    · intro db' h
      unfold matEvents at h
      repeat' split at h
      all_goals (try cases h)
      all_goals (have hres := (ih _).1 db' h; exact hres)
    · intro e dbp h
      unfold matEvents at h
      repeat' split at h
      all_goals (try cases h)
      all_goals (try exact ⟨rfl, rfl, rfl⟩)
      all_goals (have hres := (ih _).2 e dbp h; exact hres)

/-- Every run ends either `completed` with the processed timestamp
stamped and the error field untouched, or `failed` with the processed
timestamp untouched and a truncated exception text recorded. -/
theorem task_dichotomy (db : DB) (r1 r2 r3 r4 : List Char) (now : Nat) :
    ((process_note_task db r1 r2 r3 r4 now).note.status = .completed ∧
      (process_note_task db r1 r2 r3 r4 now).note.processed_at = some now ∧
      (process_note_task db r1 r2 r3 r4 now).note.error_message = db.note.error_message) ∨
    ((process_note_task db r1 r2 r3 r4 now).note.status = .failed ∧
      (process_note_task db r1 r2 r3 r4 now).note.processed_at = db.note.processed_at ∧
      ∃ e, (process_note_task db r1 r2 r3 r4 now).note.error_message =
        some ((PyErr.msg e).take 500)) := by
  rcases hp : process_note r1 r2 r3 r4 with e | res
  · have ht : process_note_task db r1 r2 r3 r4 now = taskFail db e := by
      simp only [process_note_task, hp]
    rw [ht]
    exact Or.inr ⟨rfl, rfl, e, rfl⟩
  rcases hm : matNoteFields db res.processed_note with ⟨e, dbp⟩ | db1
  · have ht : process_note_task db r1 r2 r3 r4 now = taskFail dbp e := by
      simp only [process_note_task, hp, hm]
    rw [ht]
    obtain ⟨-, -, hpa, -, -, -⟩ := (matNoteFields_frame db res.processed_note).2 e dbp hm
    exact Or.inr ⟨rfl, hpa, e, rfl⟩
  obtain ⟨hst1, herr1, hpa1, -, -, -⟩ := (matNoteFields_frame db res.processed_note).1 db1 hm
  rcases hi : res.flashcards.iterate with e | fcItems
  · have ht : process_note_task db r1 r2 r3 r4 now = taskFail db1 e := by
      simp only [process_note_task, hp, hm, hi]
    rw [ht]
    exact Or.inr ⟨rfl, hpa1, e, rfl⟩
  rcases hf : matFlashcards db1 fcItems with ⟨e, dbp⟩ | db2
  · have ht : process_note_task db r1 r2 r3 r4 now = taskFail dbp e := by
      simp only [process_note_task, hp, hm, hi, hf]
    rw [ht]
    obtain ⟨hn, -, -⟩ := (matFlashcards_frame fcItems db1).2 e dbp hf
    refine Or.inr ⟨rfl, ?_, e, rfl⟩
    show dbp.note.processed_at = db.note.processed_at
    rw [hn]
    exact hpa1
  obtain ⟨hn2, -, -⟩ := (matFlashcards_frame fcItems db1).1 db2 hf
  rcases hqi : res.study_questions.iterate with e | qItems
  · have ht : process_note_task db r1 r2 r3 r4 now = taskFail db2 e := by
      simp only [process_note_task, hp, hm, hi, hf, hqi]
    rw [ht]
    refine Or.inr ⟨rfl, ?_, e, rfl⟩
    show db2.note.processed_at = db.note.processed_at
    rw [hn2]
    exact hpa1
  rcases hq : matQuestions db2 qItems with ⟨e, dbp⟩ | db3
  · have ht : process_note_task db r1 r2 r3 r4 now = taskFail dbp e := by
      simp only [process_note_task, hp, hm, hi, hf, hqi, hq]
    rw [ht]
    obtain ⟨hn, -, -⟩ := (matQuestions_frame qItems db2).2 e dbp hq
    refine Or.inr ⟨rfl, ?_, e, rfl⟩
    show dbp.note.processed_at = db.note.processed_at
    rw [hn, hn2]
    exact hpa1
  obtain ⟨hn3, -, -⟩ := (matQuestions_frame qItems db2).1 db3 hq
  rcases hev : matEvents db3 res.extracted_events with ⟨e, dbp⟩ | db4
  · have ht : process_note_task db r1 r2 r3 r4 now = taskFail dbp e := by
      simp only [process_note_task, hp, hm, hi, hf, hqi, hq, hev]
    rw [ht]
    obtain ⟨hn, -, -⟩ := (matEvents_frame res.extracted_events db3).2 e dbp hev
    refine Or.inr ⟨rfl, ?_, e, rfl⟩
    show dbp.note.processed_at = db.note.processed_at
    rw [hn, hn3, hn2]
    exact hpa1
  obtain ⟨hn4, -, -⟩ := (matEvents_frame res.extracted_events db3).1 db4 hev
  have ht : process_note_task db r1 r2 r3 r4 now =
      { db4 with note := { db4.note with status := .completed, processed_at := some now } } := by
    simp only [process_note_task, hp, hm, hi, hf, hqi, hq, hev]
  rw [ht]
  refine Or.inl ⟨rfl, rfl, ?_⟩
  show db4.note.error_message = db.note.error_message
  rw [hn4, hn3, hn2]
  exact herr1

/-! ## C10: reprocess frame -/

/-- C10: reprocess clears summary, key-concepts, knowledge-gaps and
error, deletes the note's flashcards, questions and extracted events
(manual events survive), resets status to `processing`, and leaves the
processed timestamp unchanged — also across a subsequent failing run. -/
theorem C10_reprocess_keeps_processed_at (db : DB) (r1 r2 r3 r4 : List Char) (now : Nat) :
    (reprocess_note db).note.processed_at = db.note.processed_at ∧
    (reprocess_note db).note.status = .processing ∧
    (reprocess_note db).note.processed_summary = none ∧
    (reprocess_note db).note.key_concepts = none ∧
    (reprocess_note db).note.knowledge_gaps = none ∧
    (reprocess_note db).note.error_message = none ∧
    (reprocess_note db).flashcards = [] ∧
    (reprocess_note db).study_questions = [] ∧
    (reprocess_note db).events = db.events.filter (fun ev => ev.source_note_id ≠ some 0) ∧
    ((process_note_task (reprocess_note db) r1 r2 r3 r4 now).note.status = .failed →
      (process_note_task (reprocess_note db) r1 r2 r3 r4 now).note.processed_at =
        db.note.processed_at) := by
  refine ⟨rfl, rfl, rfl, rfl, rfl, rfl, rfl, rfl, rfl, ?_⟩
  intro hf
  rcases task_dichotomy (reprocess_note db) r1 r2 r3 r4 now with ⟨hc, -, -⟩ | ⟨-, hpa, -⟩
  · rw [hf] at hc
    cases hc
  · exact hpa

set_option maxRecDepth 8000 in
/-- C10 witness: reprocessing the successfully processed note keeps its
processed timestamp, and a subsequent failing run still keeps it. -/
theorem C10_witness :
    dbReproFail.note.processed_at = dbGood.note.processed_at ∧
    dbGood.note.processed_at = some 7 := by
  refine ⟨?_, rfl⟩
  have h := (C10_reprocess_keeps_processed_at dbGood rSummGood rFcBad rQGood rEvGood 9)
  exact h.2.2.2.2.2.2.2.2.2 rfl

/-! ## C4: status invariants over reachable stores -/

/-- The invariant that actually holds along every sequential trace:
`failed` iff an error message is recorded; `completed` implies the
processed timestamp is set; `processing` carries no error message. -/
theorem reach_inv (db : DB) (h : Reach db) :
    (db.note.status = .failed ↔ (db.note.error_message).isSome = true) ∧
    (db.note.status = .completed → (db.note.processed_at).isSome = true) ∧
    (db.note.status = .processing → db.note.error_message = none) := by
  induction h with
  | upload =>
    refine ⟨?_, ?_, ?_⟩ <;> simp [uploadDB]
  | task db r1 r2 r3 r4 now hr hs ih =>
    rcases task_dichotomy db r1 r2 r3 r4 now with ⟨hc, hpa, herr⟩ | ⟨hf, hpa, e, herr⟩
    · have herrnone : db.note.error_message = none := ih.2.2 hs
      refine ⟨?_, ?_, ?_⟩
      · rw [hc, herr, herrnone]
        simp
      · intro _
        rw [hpa]
        rfl
      · intro hpr
        rw [hc] at hpr
        cases hpr
    · refine ⟨?_, ?_, ?_⟩
      · rw [hf, herr]
        simp
      · intro hcomp
        rw [hf] at hcomp
        cases hcomp
      · intro hpr
        rw [hf] at hpr
        cases hpr
  | transport db emsg hr hs ih =>
    refine ⟨?_, ?_, ?_⟩ <;> simp [process_note_task_transport_fail]
  | reproc db hr ih =>
    refine ⟨?_, ?_, ?_⟩ <;> simp [reprocess_note]

/-- C4 amended: over reachable stores, `failed` holds iff the error
detail is non-null, and `completed` implies the processed timestamp is
set; but `completed` is *not* equivalent to "summary non-null and
processed timestamp set" (see the counterexample). -/
theorem C4_corrected_status_invariants (db : DB) (h : Reach db) :
    (db.note.status = .failed ↔ (db.note.error_message).isSome = true) ∧
    (db.note.status = .completed → (db.note.processed_at).isSome = true) :=
  ⟨(reach_inv db h).1, (reach_inv db h).2.1⟩

/-- C4 witness: the invariants at the store reached by upload plus one
successful run. -/
theorem C4_witness :
    (dbGood.note.status = .failed ↔ (dbGood.note.error_message).isSome = true) ∧
    (dbGood.note.status = .completed → (dbGood.note.processed_at).isSome = true) :=
  C4_corrected_status_invariants dbGood
    (Reach.task uploadDB rSummGood rFcGood rQGood rEvGood 7 Reach.upload rfl)

set_option maxRecDepth 8000 in
/-- C4 counterexample: after a successful run, a reprocess, and a rerun
that fails in the flashcard loop, the store is reachable, has a non-null
summary (the rerun's partial write) and a set processed timestamp (stale
from the first run), yet its status is `failed`, not `completed` —
refuting "status is `completed` iff summary is non-null and processed
timestamp is set". -/
theorem C4_counterexample_failed_run_after_reprocess :
    Reach dbReproFail ∧
    (dbReproFail.note.processed_summary).isSome = true ∧
    (dbReproFail.note.processed_at).isSome = true ∧
    dbReproFail.note.status ≠ .completed := by
  refine ⟨?_, rfl, rfl, by decide⟩
  exact Reach.task (reprocess_note dbGood) rSummGood rFcBad rQGood rEvGood 9
    (Reach.reproc dbGood (Reach.task uploadDB rSummGood rFcGood rQGood rEvGood 7 Reach.upload rfl))
    rfl

/-! ## C2: failure path commits, it does not roll back -/

/-- The flashcard loop only ever appends: the incoming rows remain a
prefix of the rows it leaves behind, in both outcomes. -/
theorem matFlashcards_extends (items : List Json) : ∀ db : DB,
    (∀ db', matFlashcards db items = .ok db' → db.flashcards <+: db'.flashcards) ∧
    (∀ e dbp, matFlashcards db items = .error (e, dbp) → db.flashcards <+: dbp.flashcards) := by
  induction items with
  | nil =>
    intro db
    constructor
    · intro db' h
      unfold matFlashcards at h
      simp only [Except.ok.injEq] at h
      subst h
      exact List.prefix_refl _
    · intro e dbp h
      unfold matFlashcards at h
      cases h
  | cons fc rest ih =>
    intro db
    constructor
    · intro db' h
      unfold matFlashcards at h
      repeat' split at h
      all_goals (try cases h)
      have hres := (ih _).1 db' h
      exact (List.prefix_append _ _).trans hres
    · intro e dbp h
      unfold matFlashcards at h
      repeat' split at h
      all_goals (try cases h)
      all_goals (try exact List.prefix_refl _)
      have hres := (ih _).2 e dbp h
      exact (List.prefix_append _ _).trans hres

/-- The question loop only ever appends. -/
theorem matQuestions_extends (items : List Json) : ∀ db : DB,
    (∀ db', matQuestions db items = .ok db' → db.study_questions <+: db'.study_questions) ∧
    (∀ e dbp, matQuestions db items = .error (e, dbp) →
      db.study_questions <+: dbp.study_questions) := by
  induction items with
  | nil =>
    intro db
    constructor
    · intro db' h
      unfold matQuestions at h
      simp only [Except.ok.injEq] at h
      subst h
      exact List.prefix_refl _
    · intro e dbp h
      unfold matQuestions at h
      cases h
  | cons sq rest ih =>
    intro db
    constructor
    · intro db' h
      unfold matQuestions at h
      repeat' split at h
      all_goals (try cases h)
      have hres := (ih _).1 db' h
      exact (List.prefix_append _ _).trans hres
    · intro e dbp h
      unfold matQuestions at h
      repeat' split at h
      all_goals (try cases h)
      all_goals (try exact List.prefix_refl _)
      have hres := (ih _).2 e dbp h
      exact (List.prefix_append _ _).trans hres

/-- The event loop only ever appends. -/
theorem matEvents_extends (items : List Json) : ∀ db : DB,
    (∀ db', matEvents db items = .ok db' → db.events <+: db'.events) ∧
    (∀ e dbp, matEvents db items = .error (e, dbp) → db.events <+: dbp.events) := by
  induction items with
  | nil =>
    intro db
    constructor
    · intro db' h
      unfold matEvents at h
      simp only [Except.ok.injEq] at h
      subst h
      exact List.prefix_refl _
    · intro e dbp h
      unfold matEvents at h
      cases h
  | cons ev rest ih =>
    intro db
    constructor
    · intro db' h
      unfold matEvents at h
      repeat' split at h
      all_goals (try cases h)
      · exact (ih _).1 db' h
      · have hres := (ih _).1 db' h
        exact (List.prefix_append _ _).trans hres
    · intro e dbp h
      unfold matEvents at h
      repeat' split at h
      all_goals (try cases h)
      all_goals (try exact List.prefix_refl _)
      · exact (ih _).2 e dbp h
      · have hres := (ih _).2 e dbp h
        exact (List.prefix_append _ _).trans hres

/-- Whatever the outcome of a run, rows present before it are still
present after it, in order: the store is only ever extended (no
rollback path exists). -/
theorem task_retains (db : DB) (r1 r2 r3 r4 : List Char) (now : Nat) :
    db.flashcards <+: (process_note_task db r1 r2 r3 r4 now).flashcards ∧
    db.study_questions <+: (process_note_task db r1 r2 r3 r4 now).study_questions ∧
    db.events <+: (process_note_task db r1 r2 r3 r4 now).events := by
  rcases hp : process_note r1 r2 r3 r4 with e | res
  · have ht : process_note_task db r1 r2 r3 r4 now = taskFail db e := by
      simp only [process_note_task, hp]
    rw [ht]
    exact ⟨List.prefix_refl _, List.prefix_refl _, List.prefix_refl _⟩
  rcases hm : matNoteFields db res.processed_note with ⟨e, dbp⟩ | db1
  · have ht : process_note_task db r1 r2 r3 r4 now = taskFail dbp e := by
      simp only [process_note_task, hp, hm]
    rw [ht]
    obtain ⟨-, -, -, hfc, hq, hev⟩ := (matNoteFields_frame db res.processed_note).2 e dbp hm
    refine ⟨?_, ?_, ?_⟩
    · show db.flashcards <+: dbp.flashcards
      rw [hfc]
    · show db.study_questions <+: dbp.study_questions
      rw [hq]
    · show db.events <+: dbp.events
      rw [hev]
  obtain ⟨-, -, -, hfc1, hq1, hev1⟩ := (matNoteFields_frame db res.processed_note).1 db1 hm
  rcases hi : res.flashcards.iterate with e | fcItems
  · have ht : process_note_task db r1 r2 r3 r4 now = taskFail db1 e := by
      simp only [process_note_task, hp, hm, hi]
    rw [ht]
    refine ⟨?_, ?_, ?_⟩
    · show db.flashcards <+: db1.flashcards
      rw [hfc1]
    · show db.study_questions <+: db1.study_questions
      rw [hq1]
    · show db.events <+: db1.events
      rw [hev1]
  rcases hf : matFlashcards db1 fcItems with ⟨e, dbp⟩ | db2
  · have ht : process_note_task db r1 r2 r3 r4 now = taskFail dbp e := by
      simp only [process_note_task, hp, hm, hi, hf]
    rw [ht]
    obtain ⟨-, hq, hev⟩ := (matFlashcards_frame fcItems db1).2 e dbp hf
    have hpre := (matFlashcards_extends fcItems db1).2 e dbp hf
    refine ⟨?_, ?_, ?_⟩
    · show db.flashcards <+: dbp.flashcards
      rw [← hfc1]
      exact hpre
    · show db.study_questions <+: dbp.study_questions
      rw [hq, hq1]
    · show db.events <+: dbp.events
      rw [hev, hev1]
  obtain ⟨-, hq2, hev2⟩ := (matFlashcards_frame fcItems db1).1 db2 hf
  have hpre2 := (matFlashcards_extends fcItems db1).1 db2 hf
  rcases hqi : res.study_questions.iterate with e | qItems
  · have ht : process_note_task db r1 r2 r3 r4 now = taskFail db2 e := by
      simp only [process_note_task, hp, hm, hi, hf, hqi]
    rw [ht]
    refine ⟨?_, ?_, ?_⟩
    · show db.flashcards <+: db2.flashcards
      rw [← hfc1]
      exact hpre2
    · show db.study_questions <+: db2.study_questions
      rw [hq2, hq1]
    · show db.events <+: db2.events
      rw [hev2, hev1]
  rcases hq : matQuestions db2 qItems with ⟨e, dbp⟩ | db3
  · have ht : process_note_task db r1 r2 r3 r4 now = taskFail dbp e := by
      simp only [process_note_task, hp, hm, hi, hf, hqi, hq]
    rw [ht]
    obtain ⟨-, hfc, hev⟩ := (matQuestions_frame qItems db2).2 e dbp hq
    have hpre := (matQuestions_extends qItems db2).2 e dbp hq
    refine ⟨?_, ?_, ?_⟩
    · show db.flashcards <+: dbp.flashcards
      rw [hfc, ← hfc1]
      exact hpre2
    · show db.study_questions <+: dbp.study_questions
      rw [hq2, hq1] at hpre
      exact hpre
    · show db.events <+: dbp.events
      rw [hev, hev2, hev1]
  obtain ⟨-, hfc3, hev3⟩ := (matQuestions_frame qItems db2).1 db3 hq
  have hpre3 := (matQuestions_extends qItems db2).1 db3 hq
  rcases hev : matEvents db3 res.extracted_events with ⟨e, dbp⟩ | db4
  · have ht : process_note_task db r1 r2 r3 r4 now = taskFail dbp e := by
      simp only [process_note_task, hp, hm, hi, hf, hqi, hq, hev]
    rw [ht]
    obtain ⟨-, hfc, hqq⟩ := (matEvents_frame res.extracted_events db3).2 e dbp hev
    have hpre := (matEvents_extends res.extracted_events db3).2 e dbp hev
    refine ⟨?_, ?_, ?_⟩
    · show db.flashcards <+: dbp.flashcards
      rw [hfc, hfc3, ← hfc1]
      exact hpre2
    · show db.study_questions <+: dbp.study_questions
      rw [hqq]
      rw [hq2, hq1] at hpre3
      exact hpre3
    · show db.events <+: dbp.events
      rw [hev3, hev2, hev1] at hpre
      exact hpre
  obtain ⟨-, hfc4, hq4⟩ := (matEvents_frame res.extracted_events db3).1 db4 hev
  have hpre4 := (matEvents_extends res.extracted_events db3).1 db4 hev
  have ht : process_note_task db r1 r2 r3 r4 now =
      { db4 with note := { db4.note with status := .completed, processed_at := some now } } := by
    simp only [process_note_task, hp, hm, hi, hf, hqi, hq, hev]
  rw [ht]
  refine ⟨?_, ?_, ?_⟩
  · show db.flashcards <+: db4.flashcards
    rw [hfc4, hfc3, ← hfc1]
    exact hpre2
  · show db.study_questions <+: db4.study_questions
    rw [hq4]
    rw [hq2, hq1] at hpre3
    exact hpre3
  · show db.events <+: db4.events
    rw [hev3, hev2, hev1] at hpre4
    exact hpre4

/-- C2 amended: a run whose materialization raises ends `failed` with
`str(e)[:500]` (at most 500 characters) recorded as error detail, but
there is no transactional rollback: the failure path commits whatever was
pending, so the store is only ever extended — the attempt's earlier
writes are retained (see the counterexample for a retained partial
flashcard write). -/
theorem C2_corrected_failure_commit (db : DB) (r1 r2 r3 r4 : List Char) (now : Nat) :
    ((process_note_task db r1 r2 r3 r4 now).note.status = .failed →
      ∃ e, (process_note_task db r1 r2 r3 r4 now).note.error_message =
          some ((PyErr.msg e).take 500) ∧
        ((PyErr.msg e).take 500).length ≤ 500) ∧
    db.flashcards <+: (process_note_task db r1 r2 r3 r4 now).flashcards ∧
    db.study_questions <+: (process_note_task db r1 r2 r3 r4 now).study_questions ∧
    db.events <+: (process_note_task db r1 r2 r3 r4 now).events := by
  refine ⟨?_, task_retains db r1 r2 r3 r4 now⟩
  intro hf
  rcases task_dichotomy db r1 r2 r3 r4 now with ⟨hc, -, -⟩ | ⟨-, -, e, herr⟩
  · rw [hf] at hc
    cases hc
  · refine ⟨e, herr, ?_⟩
    have := List.length_take 500 (PyErr.msg e)
    omega

set_option maxRecDepth 8000 in
/-- C2 witness: the failing run on the uploaded note records the
truncated `KeyError` text and retains the (empty) pre-attempt rows. -/
theorem C2_witness :
    (∃ e, (process_note_task uploadDB rSummGood rFcBad rQGood rEvGood 7).note.error_message =
        some ((PyErr.msg e).take 500) ∧ ((PyErr.msg e).take 500).length ≤ 500) ∧
    uploadDB.flashcards <+:
      (process_note_task uploadDB rSummGood rFcBad rQGood rEvGood 7).flashcards := by
  have h := C2_corrected_failure_commit uploadDB rSummGood rFcBad rQGood rEvGood 7
  exact ⟨h.1 rfl, h.2.1⟩

set_option maxRecDepth 8000 in
/-- C2 counterexample: in the run whose second flashcard item lacks
`front`, the note ends `failed` but the store does *not* equal its
pre-attempt state outside the status and error fields: the first
flashcard row and the summary write survive. -/
theorem C2_counterexample_partial_writes_retained :
    (process_note_task uploadDB rSummGood rFcBad rQGood rEvGood 7).note.status = .failed ∧
    uploadDB.flashcards = [] ∧
    (process_note_task uploadDB rSummGood rFcBad rQGood rEvGood 7).flashcards.length = 1 ∧
    uploadDB.note.processed_summary = none ∧
    ((process_note_task uploadDB rSummGood rFcBad rQGood rEvGood 7).note.processed_summary).isSome
      = true :=
  ⟨rfl, rfl, rfl, rfl, rfl⟩

/-! ## C6: the event stage filter -/

/-- On a processable candidate the per-item check never raises and
reports exactly the date-validation verdict. -/
theorem evCheck_wf (ev : Json) (h : wfEvDateB ev = true) : evCheck ev = .ok (dateOkB ev) := by
  cases ev with
  | obj f =>
    simp only [wfEvDateB] at h
    cases hl : lookupLast f ("date").data with
    | none => simp [evCheck, dateOkB, hl]
    | some d =>
      rw [hl] at h
      cases d with
      | str s =>
        cases s with
        | nil =>
          have : dateOkStr [] = false := by decide
          simp [evCheck, dateOkB, hl, Json.truthy, this]
        | cons c cs => simp [evCheck, dateOkB, hl, Json.truthy]
      | null => simp [evCheck, dateOkB, hl, Json.truthy]
      | bool b =>
        cases b with
        | false => simp [evCheck, dateOkB, hl, Json.truthy]
        | true => simp [Json.isStr, Json.truthy] at h
      | num n =>
        by_cases hn : n = 0
        · subst hn
          simp [evCheck, dateOkB, hl, Json.truthy]
        · simp [Json.isStr, Json.truthy, hn] at h
      | arr l =>
        cases l with
        | nil => simp [evCheck, dateOkB, hl, Json.truthy]
        | cons x xs => simp [Json.isStr, Json.truthy] at h
      | obj g =>
        cases g with
        | nil => simp [evCheck, dateOkB, hl, Json.truthy]
        | cons x xs => simp [Json.isStr, Json.truthy] at h
  | null => simp [wfEvDateB] at h
  | bool b => simp [wfEvDateB] at h
  | num n => simp [wfEvDateB] at h
  | str s => simp [wfEvDateB] at h
  | arr l => simp [wfEvDateB] at h

/-- Over processable candidates the stage loop is exactly the in-order
filter by date validity. -/
theorem validEventsLoop_filter (l : List Json) (h : ∀ ev ∈ l, wfEvDateB ev = true) :
    validEventsLoop l = .ok (l.filter dateOkB) := by
  induction l with
  | nil => rfl
  | cons ev rest ih =>
    have h1 := evCheck_wf ev (h ev (by simp))
    have h2 := ih (fun x hx => h x (by simp [hx]))
    simp only [validEventsLoop, h1, h2]
    cases hd : dateOkB ev <;>
      simp [List.filter_cons, hd, Bind.bind, Except.bind, Pure.pure, Except.pure]

/-- C6 amended: over candidate lists whose items are objects with an
absent, string, or falsy `date` field, the stage output is exactly the
in-order sublist of items whose date string parses (a trailing `Z`
accepted as UTC designator), failing items dropped silently; the claimed
examples behave as stated.  (The restriction is forced by the
counterexample: a truthy non-string date raises instead of being
dropped.) -/
theorem C6_corrected_event_filter :
    (∀ l : List Json, (∀ ev ∈ l, wfEvDateB ev = true) →
      validEventsLoop l = .ok (l.filter dateOkB)) ∧
    dateOkStr ("2025-01-15T14:00:00Z").data = true ∧
    dateOkStr ("2025-01-15T14:00:00").data = true ∧
    dateOkStr ("not-a-date").data = false :=
  ⟨fun l h => validEventsLoop_filter l h, by decide, by decide, by decide⟩

/-- C6 witness: the filter on a concrete two-candidate list keeps the
valid-date item and drops the invalid one. -/
theorem C6_witness :
    validEventsLoop
        [Json.obj [(("date").data, Json.str ("2025-01-15T14:00:00Z").data)],
         Json.obj [(("date").data, Json.str ("not-a-date").data)]] =
      .ok (List.filter dateOkB
        [Json.obj [(("date").data, Json.str ("2025-01-15T14:00:00Z").data)],
         Json.obj [(("date").data, Json.str ("not-a-date").data)]]) :=
  C6_corrected_event_filter.1 _ (by decide)

/-- C6 counterexample: a candidate whose `date` field is the number `5`
is not dropped silently — the stage raises `AttributeError` (`.replace`
on a non-string), so its output is not the filtered sublist. -/
theorem C6_counterexample_nonstring_date :
    validEventsLoop [Json.obj [(("date").data, Json.num 5)]] =
      .error (PyErr.attributeError ("object has no attribute replace").data) ∧
    ∀ out, validEventsLoop [Json.obj [(("date").data, Json.num 5)]] ≠ .ok out := by
  have heq : validEventsLoop [Json.obj [(("date").data, Json.num 5)]] =
      .error (PyErr.attributeError ("object has no attribute replace").data) := rfl
  refine ⟨heq, ?_⟩
  intro out h
  rw [heq] at h
  exact Except.noConfusion h

/-! ## C8: the confidence default equals the manual-event confidence -/

/-- C8: an extracted event item without a `confidence` field is stored
with confidence 1.0, and a manually created event is stored with
confidence 1.0 — indistinguishable by confidence. -/
theorem C8_confidence_default_matches_manual (f : List (List Char × Json)) (s : List Char)
    (dt : PyDateTime) (title etype : Json)
    (hconf : lookupLast f ("confidence").data = none)
    (hdate : lookupLast f ("date").data = some (Json.str s))
    (hparse : fromisoformat (replaceZ s) = some dt)
    (htitle : lookupLast f ("title").data = some title)
    (hetype : lookupLast f ("event_type").data = some etype) :
    mkEventStep (Json.obj f) =
      .ok (some { title := title, event_type := etype, event_date := dt,
                  confidence := Json.num 1, source_note_id := some 0 }) ∧
    ∀ (db : DB) (t ty : Json) (d : PyDateTime),
      (create_event db t ty d).events =
        db.events ++ [{ title := t, event_type := ty, event_date := d,
                        confidence := Json.num 1, source_note_id := none }] := by
  constructor
  · simp [mkEventStep, Json.getItem, Json.getD, hconf, hdate, hparse, htitle, hetype]
  · intro db t ty d
    rfl

set_option maxRecDepth 2000 in
/-- C8 witness: a concrete confidence-free extracted item and a concrete
manual event both store confidence 1.0. -/
theorem C8_witness :
    mkEventStep (Json.obj [(("title").data, Json.str ("Exam").data),
        (("event_type").data, Json.str ("exam").data),
        (("date").data, Json.str ("2025-05-01T09:00:00").data)]) =
      .ok (some { title := Json.str ("Exam").data, event_type := Json.str ("exam").data,
                  event_date := ⟨2025, 5, 1, 9, 0, 0, none⟩,
                  confidence := Json.num 1, source_note_id := some 0 }) ∧
    ∀ (db : DB) (t ty : Json) (d : PyDateTime),
      (create_event db t ty d).events =
        db.events ++ [{ title := t, event_type := ty, event_date := d,
                        confidence := Json.num 1, source_note_id := none }] :=
  C8_confidence_default_matches_manual _ _ _ _ _ rfl rfl rfl rfl rfl

/-! ## C9: per-item tolerance applies only to events -/

/-- A flashcard list containing an item without `front` or without
`back` always makes the flashcard loop raise, wherever the item sits. -/
theorem matFlashcards_raises (bf : List (List Char × Json))
    (hmiss : lookupLast bf ("front").data = none ∨ lookupLast bf ("back").data = none) :
    ∀ (pre post : List Json) (db : DB),
      ∃ e dbp, matFlashcards db (pre ++ Json.obj bf :: post) = .error (e, dbp) := by
  intro pre
  induction pre with
  | nil =>
    intro post db
    rcases hmiss with hm | hm
    · refine ⟨.keyError ("front").data, db, ?_⟩
      simp [matFlashcards, Json.getItem, hm]
    · cases hf : lookupLast bf ("front").data with
      | none =>
        refine ⟨.keyError ("front").data, db, ?_⟩
        simp [matFlashcards, Json.getItem, hf]
      | some v =>
        refine ⟨.keyError ("back").data, db, ?_⟩
        simp [matFlashcards, Json.getItem, hf, hm]
  | cons fc rest ih =>
    intro post db
    rw [List.cons_append]
    cases h1 : fc.getItem ("front").data with
    | error e =>
      refine ⟨e, db, ?_⟩
      simp [matFlashcards, h1]
    | ok front =>
      cases h2 : fc.getItem ("back").data with
      | error e =>
        refine ⟨e, db, ?_⟩
        simp [matFlashcards, h1, h2]
      | ok back =>
        cases h3 : fc.getD ("difficulty").data (Json.str ("medium").data) with
        | error e =>
          refine ⟨e, db, ?_⟩
          simp [matFlashcards, h1, h2, h3]
        | ok diff =>
          obtain ⟨e, dbp, hres⟩ := ih post
            { db with flashcards := db.flashcards ++
                [{ front := front, back := back, difficulty := diff }] }
          refine ⟨e, dbp, ?_⟩
          simp [matFlashcards, h1, h2, h3, hres]

/-- A question list containing an item without `question` or without
`suggested_answer` always makes the question loop raise. -/
theorem matQuestions_raises (bf : List (List Char × Json))
    (hmiss : lookupLast bf ("question").data = none ∨
      lookupLast bf ("suggested_answer").data = none) :
    ∀ (pre post : List Json) (db : DB),
      ∃ e dbp, matQuestions db (pre ++ Json.obj bf :: post) = .error (e, dbp) := by
  intro pre
  induction pre with
  | nil =>
    intro post db
    rcases hmiss with hm | hm
    · refine ⟨.keyError ("question").data, db, ?_⟩
      simp [matQuestions, Json.getItem, hm]
    · cases hf : lookupLast bf ("question").data with
      | none =>
        refine ⟨.keyError ("question").data, db, ?_⟩
        simp [matQuestions, Json.getItem, hf]
      | some v =>
        refine ⟨.keyError ("suggested_answer").data, db, ?_⟩
        simp [matQuestions, Json.getItem, hf, hm]
  | cons sq rest ih =>
    intro post db
    rw [List.cons_append]
    cases h1 : sq.getItem ("question").data with
    | error e =>
      refine ⟨e, db, ?_⟩
      simp [matQuestions, h1]
    | ok q =>
      cases h2 : sq.getItem ("suggested_answer").data with
      | error e =>
        refine ⟨e, db, ?_⟩
        simp [matQuestions, h1, h2]
      | ok ans =>
        cases h3 : sq.getD ("question_type").data (Json.str ("conceptual").data) with
        | error e =>
          refine ⟨e, db, ?_⟩
          simp [matQuestions, h1, h2, h3]
        | ok qt =>
          obtain ⟨e, dbp, hres⟩ := ih post
            { db with study_questions := db.study_questions ++
                [{ question := q, suggested_answer := ans, question_type := qt }] }
          refine ⟨e, dbp, ?_⟩
          simp [matQuestions, h1, h2, h3, hres]

/-- C9: a flashcard item missing `front`/`back`, or a question item
missing `question`/`suggested_answer`, aborts the whole run to `failed`,
while an event item whose date string fails to parse is skipped by the
stage check without any error. -/
theorem C9_item_strictness :
    (∀ (db : DB) (r1 r2 r3 r4 : List Char) (now : Nat) (res : PipeResult)
        (pre post : List Json) (bf : List (List Char × Json)),
      process_note r1 r2 r3 r4 = .ok res →
      res.flashcards = Json.arr (pre ++ Json.obj bf :: post) →
      (lookupLast bf ("front").data = none ∨ lookupLast bf ("back").data = none) →
      (process_note_task db r1 r2 r3 r4 now).note.status = .failed) ∧
    (∀ (db : DB) (r1 r2 r3 r4 : List Char) (now : Nat) (res : PipeResult)
        (pre post : List Json) (bf : List (List Char × Json)),
      process_note r1 r2 r3 r4 = .ok res →
      res.study_questions = Json.arr (pre ++ Json.obj bf :: post) →
      (lookupLast bf ("question").data = none ∨
        lookupLast bf ("suggested_answer").data = none) →
      (process_note_task db r1 r2 r3 r4 now).note.status = .failed) ∧
    (∀ (f : List (List Char × Json)) (s : List Char),
      lookupLast f ("date").data = some (Json.str s) → dateOkStr s = false →
      evCheck (Json.obj f) = .ok false) := by
  refine ⟨?_, ?_, ?_⟩
  · intro db r1 r2 r3 r4 now res pre post bf hp hfc hmiss
    rcases hm : matNoteFields db res.processed_note with ⟨e, dbp⟩ | db1
    · have ht : process_note_task db r1 r2 r3 r4 now = taskFail dbp e := by
        simp only [process_note_task, hp, hm]
      rw [ht]
      rfl
    · obtain ⟨e, dbp, hraise⟩ := matFlashcards_raises bf hmiss pre post db1
      have ht : process_note_task db r1 r2 r3 r4 now = taskFail dbp e := by
        simp only [process_note_task, hp, hm, hfc, Json.iterate, hraise]
      rw [ht]
      rfl
  · intro db r1 r2 r3 r4 now res pre post bf hp hq hmiss
    rcases hm : matNoteFields db res.processed_note with ⟨e, dbp⟩ | db1
    · have ht : process_note_task db r1 r2 r3 r4 now = taskFail dbp e := by
        simp only [process_note_task, hp, hm]
      rw [ht]
      rfl
    · rcases hi : res.flashcards.iterate with e | fcItems
      · have ht : process_note_task db r1 r2 r3 r4 now = taskFail db1 e := by
          simp only [process_note_task, hp, hm, hi]
        rw [ht]
        rfl
      · rcases hf : matFlashcards db1 fcItems with ⟨e, dbp⟩ | db2
        · have ht : process_note_task db r1 r2 r3 r4 now = taskFail dbp e := by
            simp only [process_note_task, hp, hm, hi, hf]
          rw [ht]
          rfl
        · obtain ⟨e, dbp, hraise⟩ := matQuestions_raises bf hmiss pre post db2
          have ht : process_note_task db r1 r2 r3 r4 now = taskFail dbp e := by
            simp only [process_note_task, hp, hm, hi, hf, hq]
            simp only [Json.iterate, hraise]
          rw [ht]
          rfl
  · intro f s hdate hbad
    simp only [evCheck, hdate]
    cases s with
    | nil => simp [Json.truthy]
    | cons c cs =>
      simp only [Json.truthy, List.isEmpty_cons, Bool.not_false, if_false]
      simp [dateOkStr] at hbad ⊢
      simp [hbad]

set_option maxRecDepth 8000 in
/-- C9 witness: the concrete run with a `front`-less flashcard item
fails, the concrete run with an answer-less question item fails, and a
concrete event item with an unparsable date is skipped with no error. -/
theorem C9_witness :
    (process_note_task uploadDB rSummGood rFcBad rQGood rEvGood 7).note.status = .failed ∧
    (process_note_task uploadDB rSummGood rFcGood rQBad rEvGood 7).note.status = .failed ∧
    evCheck (Json.obj [(("date").data, Json.str ("not-a-date").data)]) = .ok false := by
  refine ⟨?_, ?_, ?_⟩
  · exact C9_item_strictness.1 uploadDB rSummGood rFcBad rQGood rEvGood 7 _
      [fcGoodItem] [] [(("back").data, Json.str ("only").data)] rfl rfl (Or.inl rfl)
  · exact C9_item_strictness.2.1 uploadDB rSummGood rFcGood rQBad rEvGood 7 _
      [] [] [(("question").data, Json.str ("q1").data)] rfl rfl (Or.inr rfl)
  · exact C9_item_strictness.2.2 _ _ rfl (by decide)

/-! ## C1 and C5: well-formed output completes the run -/

/-- The prompt interpolation of `key_concepts` succeeds on an
interpolable value. -/
theorem conceptsCheck_ok (kc : Json) (h : conceptsOkB kc = true) : conceptsCheck kc = .ok () := by
  cases kc with
  | null => rfl
  | bool b =>
    cases b with
    | false => rfl
    | true => simp [conceptsOkB, Json.truthy, Json.isStr] at h
  | num n =>
    by_cases hn : n = 0
    · subst hn
      rfl
    · simp [conceptsOkB, Json.truthy, Json.isStr, hn] at h
  | str s =>
    cases s with
    | nil => rfl
    | cons c cs => rfl
  | arr l =>
    cases l with
    | nil => rfl
    | cons x xs =>
      simp only [conceptsOkB, Json.truthy, Json.isStr, List.isEmpty_cons, Bool.not_false,
        Bool.false_or, Bool.not_true, Bool.or_false] at h
      simp only [conceptsCheck, Json.truthy, List.isEmpty_cons, Bool.not_false]
      rw [if_neg (by decide), if_pos h]
  | obj f =>
    cases f with
    | nil => rfl
    | cons x xs => simp [conceptsOkB, Json.truthy, Json.isStr] at h

/-- Reading with the empty-list default on any dict. -/
theorem getD_objB (p : Json) (k : List Char) (h : isObjB p = true) :
    p.getD k (Json.arr []) = .ok (getFieldD p k) := by
  cases p with
  | obj f =>
    simp only [Json.getD, getFieldD, getOpt]
    cases lookupLast f k <;> rfl
  | null => simp [isObjB] at h
  | bool b => simp [isObjB] at h
  | num n => simp [isObjB] at h
  | str s => simp [isObjB] at h
  | arr l => simp [isObjB] at h

/-- A well-formed list field reads back as the array of its items, all
of which satisfy the item predicate. -/
theorem getD_field (p : Json) (field : List Char) (itemOk : Json → Bool)
    (h : wfListField p field itemOk = true) :
    p.getD field (Json.arr []) = .ok (Json.arr (fieldItems p field)) ∧
    ∀ x ∈ fieldItems p field, itemOk x = true := by
  cases p with
  | obj f =>
    simp only [wfListField, isObjB, Bool.true_and] at h
    cases hl : lookupLast f field with
    | none =>
      constructor
      · simp [Json.getD, fieldItems, getOpt, hl]
      · simp [fieldItems, getOpt, hl]
    | some v =>
      rw [show getOpt (Json.obj f) field = lookupLast f field from rfl, hl] at h
      cases v with
      | arr l =>
        constructor
        · simp [Json.getD, fieldItems, getOpt, hl]
        · intro x hx
          rw [List.all_eq_true] at h
          exact h x (by simpa [fieldItems, getOpt, hl] using hx)
      | null => simp at h
      | bool b => simp at h
      | num n => simp at h
      | str s => simp at h
      | obj g => simp at h
  | null => simp [wfListField, isObjB] at h
  | bool b => simp [wfListField, isObjB] at h
  | num n => simp [wfListField, isObjB] at h
  | str s => simp [wfListField, isObjB] at h
  | arr l => simp [wfListField, isObjB] at h

/-- Unpack the summarizer well-formedness flag. -/
theorem wfSummOut_parts (p : Json) (h : wfSummOut p = true) :
    isObjB p = true ∧
    (∃ v, getOpt p ("summary").data = some v) ∧
    (∃ v, getOpt p ("key_concepts").data = some v) ∧
    (∃ v, getOpt p ("gaps_or_unclear").data = some v) ∧
    conceptsOkB (getFieldD p ("key_concepts").data) = true := by
  simp only [wfSummOut, Bool.and_eq_true, hasKey] at h
  obtain ⟨⟨⟨⟨hobj, hs⟩, hk⟩, hg⟩, hc⟩ := h
  refine ⟨hobj, Option.isSome_iff_exists.mp hs, Option.isSome_iff_exists.mp hk,
    Option.isSome_iff_exists.mp hg, ?_⟩
  obtain ⟨v, hv⟩ := Option.isSome_iff_exists.mp hk
  rw [show getKey p ("key_concepts").data = v by simp [getKey, hv]] at hc
  rw [show getFieldD p ("key_concepts").data = v by simp [getFieldD, hv]]
  exact hc

/-- A well-formed summarizer bundle materializes its three fields. -/
theorem matNoteFields_ok (db : DB) (p : Json) (h : wfSummOut p = true) :
    matNoteFields db p = .ok { db with note := { db.note with
      processed_summary := some (getKey p ("summary").data),
      key_concepts := some (json_dumps (getKey p ("key_concepts").data)),
      knowledge_gaps := some (json_dumps (getKey p ("gaps_or_unclear").data)) } } := by
  obtain ⟨hobj, ⟨v1, hv1⟩, ⟨v2, hv2⟩, ⟨v3, hv3⟩, -⟩ := wfSummOut_parts p h
  cases p with
  | obj f =>
    rw [show getOpt (Json.obj f) ("summary").data = lookupLast f ("summary").data from rfl] at hv1
    rw [show getOpt (Json.obj f) ("key_concepts").data =
      lookupLast f ("key_concepts").data from rfl] at hv2
    rw [show getOpt (Json.obj f) ("gaps_or_unclear").data =
      lookupLast f ("gaps_or_unclear").data from rfl] at hv3
    simp [matNoteFields, Json.getItem, getKey, getOpt, hv1, hv2, hv3]
  | null => simp [isObjB] at hobj
  | bool b => simp [isObjB] at hobj
  | num n => simp [isObjB] at hobj
  | str s => simp [isObjB] at hobj
  | arr l => simp [isObjB] at hobj

/-- Well-formed flashcard items materialize to their mapped rows. -/
theorem matFlashcards_ok (items : List Json) : ∀ db : DB,
    (∀ fc ∈ items, wfFcItemB fc = true) →
    matFlashcards db items = .ok { db with flashcards := db.flashcards ++ items.map mkFlashRec } := by
  induction items with
  | nil =>
    intro db h
    simp [matFlashcards]
  | cons fc rest ih =>
    intro db h
    have hfc := h fc (by simp)
    simp only [wfFcItemB, Bool.and_eq_true, hasKey] at hfc
    obtain ⟨v1, hv1⟩ := Option.isSome_iff_exists.mp hfc.1
    obtain ⟨v2, hv2⟩ := Option.isSome_iff_exists.mp hfc.2
    cases fc with
    | obj f =>
      rw [show getOpt (Json.obj f) ("front").data = lookupLast f ("front").data from rfl] at hv1
      rw [show getOpt (Json.obj f) ("back").data = lookupLast f ("back").data from rfl] at hv2
      have hrec := ih { db with flashcards := db.flashcards ++ [mkFlashRec (Json.obj f)] }
        (fun x hx => h x (by simp [hx]))
      simp only [matFlashcards, Json.getItem, Json.getD, hv1, hv2]
      cases hd : lookupLast f ("difficulty").data with
      | none =>
        have hmk : mkFlashRec (Json.obj f) =
            { front := v1, back := v2, difficulty := Json.str ("medium").data } := by
          simp [mkFlashRec, getKey, getOpt, hv1, hv2, hd]
        rw [hmk] at hrec
        simp [hd, hrec, hmk]
      | some dv =>
        have hmk : mkFlashRec (Json.obj f) = { front := v1, back := v2, difficulty := dv } := by
          simp [mkFlashRec, getKey, getOpt, hv1, hv2, hd]
        rw [hmk] at hrec
        simp [hd, hrec, hmk]
    | null => simp [getOpt] at hv1
    | bool b => simp [getOpt] at hv1
    | num n => simp [getOpt] at hv1
    | str s => simp [getOpt] at hv1
    | arr l => simp [getOpt] at hv1

/-- Well-formed question items materialize to their mapped rows. -/
theorem matQuestions_ok (items : List Json) : ∀ db : DB,
    (∀ sq ∈ items, wfQItemB sq = true) →
    matQuestions db items =
      .ok { db with study_questions := db.study_questions ++ items.map mkQuestionRec } := by
  induction items with
  | nil =>
    intro db h
    simp [matQuestions]
  | cons sq rest ih =>
    intro db h
    have hsq := h sq (by simp)
    simp only [wfQItemB, Bool.and_eq_true, hasKey] at hsq
    obtain ⟨v1, hv1⟩ := Option.isSome_iff_exists.mp hsq.1
    obtain ⟨v2, hv2⟩ := Option.isSome_iff_exists.mp hsq.2
    cases sq with
    | obj f =>
      rw [show getOpt (Json.obj f) ("question").data = lookupLast f ("question").data from rfl] at hv1
      rw [show getOpt (Json.obj f) ("suggested_answer").data =
        lookupLast f ("suggested_answer").data from rfl] at hv2
      have hrec := ih { db with study_questions := db.study_questions ++ [mkQuestionRec (Json.obj f)] }
        (fun x hx => h x (by simp [hx]))
      simp only [matQuestions, Json.getItem, Json.getD, hv1, hv2]
      cases hd : lookupLast f ("question_type").data with
      | none =>
        have hmk : mkQuestionRec (Json.obj f) =
            { question := v1, suggested_answer := v2,
              question_type := Json.str ("conceptual").data } := by
          simp [mkQuestionRec, getKey, getOpt, hv1, hv2, hd]
        rw [hmk] at hrec
        simp [hd, hrec, hmk]
      | some dv =>
        have hmk : mkQuestionRec (Json.obj f) =
            { question := v1, suggested_answer := v2, question_type := dv } := by
          simp [mkQuestionRec, getKey, getOpt, hv1, hv2, hd]
        rw [hmk] at hrec
        simp [hd, hrec, hmk]
    | null => simp [getOpt] at hv1
    | bool b => simp [getOpt] at hv1
    | num n => simp [getOpt] at hv1
    | str s => simp [getOpt] at hv1
    | arr l => simp [getOpt] at hv1

/-- An event item that passed date validation and carries `title` and
`event_type` materializes to its mapped row. -/
theorem mkEventStep_wf (ev : Json) (hd : dateOkB ev = true)
    (ht : hasKey ev ("title").data = true) (he : hasKey ev ("event_type").data = true) :
    mkEventStep ev = .ok (some (mkEventRec ev)) := by
  cases ev with
  | obj f =>
    simp only [hasKey] at ht he
    obtain ⟨tv, htv⟩ := Option.isSome_iff_exists.mp ht
    obtain ⟨ev2, hev2⟩ := Option.isSome_iff_exists.mp he
    rw [show getOpt (Json.obj f) ("title").data = lookupLast f ("title").data from rfl] at htv
    rw [show getOpt (Json.obj f) ("event_type").data =
      lookupLast f ("event_type").data from rfl] at hev2
    simp only [dateOkB] at hd
    cases hl : lookupLast f ("date").data with
    | none => rw [hl] at hd; cases hd
    | some d =>
      rw [hl] at hd
      cases d with
      | str s =>
        have hdz : (fromisoformat (replaceZ s)).isSome = true := hd
        obtain ⟨dt, hdt⟩ := Option.isSome_iff_exists.mp hdz
        cases hc : lookupLast f ("confidence").data with
        | none =>
          simp [mkEventStep, Json.getItem, Json.getD, hl, hdt, htv, hev2, hc,
            mkEventRec, getKey, getStr, getOpt]
        | some cv =>
          simp [mkEventStep, Json.getItem, Json.getD, hl, hdt, htv, hev2, hc,
            mkEventRec, getKey, getStr, getOpt]
      | null => cases hd
      | bool b => cases hd
      | num n => cases hd
      | arr l => cases hd
      | obj g => cases hd
  | null => cases hd
  | bool b => cases hd
  | num n => cases hd
  | str s => cases hd
  | arr l => cases hd

/-- An event item that passed date validation never raises in the
materializer loop (a missing `title`/`event_type` is caught and
skipped). -/
theorem mkEventStep_dateOk (ev : Json) (hd : dateOkB ev = true) :
    ∃ o, mkEventStep ev = .ok o := by
  cases ev with
  | obj f =>
    simp only [dateOkB] at hd
    cases hl : lookupLast f ("date").data with
    | none => rw [hl] at hd; cases hd
    | some d =>
      rw [hl] at hd
      cases d with
      | str s =>
        have hdz : (fromisoformat (replaceZ s)).isSome = true := hd
        obtain ⟨dt, hdt⟩ := Option.isSome_iff_exists.mp hdz
        cases htv : lookupLast f ("title").data with
        | none => exact ⟨none, by simp [mkEventStep, Json.getItem, hl, hdt, htv]⟩
        | some tv =>
          cases hev2 : lookupLast f ("event_type").data with
          | none => exact ⟨none, by simp [mkEventStep, Json.getItem, hl, hdt, htv, hev2]⟩
          | some ev2 =>
            cases hc : lookupLast f ("confidence").data with
            | none =>
              refine ⟨some { title := tv, event_type := ev2, event_date := dt, confidence := Json.num 1, source_note_id := some 0 }, ?_⟩
              simp [mkEventStep, Json.getItem, Json.getD, hl, hdt, htv, hev2, hc]
            | some cv =>
              refine ⟨some { title := tv, event_type := ev2, event_date := dt, confidence := cv, source_note_id := some 0 }, ?_⟩
              simp [mkEventStep, Json.getItem, Json.getD, hl, hdt, htv, hev2, hc]
      | null => cases hd
      | bool b => cases hd
      | num n => cases hd
      | arr l => cases hd
      | obj g => cases hd
  | null => cases hd
  | bool b => cases hd
  | num n => cases hd
  | str s => cases hd
  | arr l => cases hd

/-- Fully well-formed event items materialize to their mapped rows. -/
theorem matEvents_ok (items : List Json) : ∀ db : DB,
    (∀ ev ∈ items, dateOkB ev = true ∧ hasKey ev ("title").data = true ∧
      hasKey ev ("event_type").data = true) →
    matEvents db items = .ok { db with events := db.events ++ items.map mkEventRec } := by
  induction items with
  | nil =>
    intro db h
    simp [matEvents]
  | cons ev rest ih =>
    intro db h
    obtain ⟨hd, ht, he⟩ := h ev (by simp)
    have hstep := mkEventStep_wf ev hd ht he
    have hrec := ih { db with events := db.events ++ [mkEventRec ev] }
      (fun x hx => h x (by simp [hx]))
    simp [matEvents, hstep, hrec]

/-- Date-valid event items never abort the materializer loop. -/
theorem matEvents_ok_weak (items : List Json) : ∀ db : DB,
    (∀ ev ∈ items, dateOkB ev = true) →
    ∃ db', matEvents db items = .ok db' := by
  induction items with
  | nil =>
    intro db h
    exact ⟨db, rfl⟩
  | cons ev rest ih =>
    intro db h
    obtain ⟨o, hstep⟩ := mkEventStep_dateOk ev (h ev (by simp))
    cases o with
    | none =>
      obtain ⟨db', hdb'⟩ := ih db (fun x hx => h x (by simp [hx]))
      exact ⟨db', by simp [matEvents, hstep, hdb']⟩
    | some r =>
      obtain ⟨db', hdb'⟩ := ih { db with events := db.events ++ [r] }
        (fun x hx => h x (by simp [hx]))
      exact ⟨db', by simp [matEvents, hstep, hdb']⟩

/-- A date-valid event item is in particular processable by the stage
filter. -/
theorem dateOkB_wfEvDateB (ev : Json) (hd : dateOkB ev = true) : wfEvDateB ev = true := by
  cases ev with
  | obj f =>
    simp only [dateOkB] at hd
    simp only [wfEvDateB]
    cases hl : lookupLast f ("date").data with
    | none => rw [hl] at hd
    | some d =>
      rw [hl] at hd
      cases d with
      | str s => simp [Json.isStr]
      | null => cases hd
      | bool b => cases hd
      | num n => cases hd
      | arr l => cases hd
      | obj g => cases hd
  | null => cases hd
  | bool b => cases hd
  | num n => cases hd
  | str s => cases hd
  | arr l => cases hd

/-- A date-valid event item missing `title` or `event_type` is skipped by
the materializer loop: the `KeyError` is caught and the iteration
continues. -/
theorem mkEventStep_skip (ev : Json) (hd : dateOkB ev = true)
    (hk : (hasKey ev ("title").data && hasKey ev ("event_type").data) = false) :
    mkEventStep ev = .ok none := by
  cases ev with
  | obj f =>
    simp only [dateOkB] at hd
    cases hl : lookupLast f ("date").data with
    | none => rw [hl] at hd; cases hd
    | some d =>
      rw [hl] at hd
      cases d with
      | str s =>
        have hdz : (fromisoformat (replaceZ s)).isSome = true := hd
        obtain ⟨dt, hdt⟩ := Option.isSome_iff_exists.mp hdz
        cases htv : lookupLast f ("title").data with
        | none => simp [mkEventStep, Json.getItem, hl, hdt, htv]
        | some tv =>
          cases hev2 : lookupLast f ("event_type").data with
          | none => simp [mkEventStep, Json.getItem, hl, hdt, htv, hev2]
          | some ev2 =>
            exfalso
            simp [hasKey, getOpt, htv, hev2] at hk
      | null => cases hd
      | bool b => cases hd
      | num n => cases hd
      | arr l => cases hd
      | obj g => cases hd
  | null => cases hd
  | bool b => cases hd
  | num n => cases hd
  | str s => cases hd
  | arr l => cases hd

/-- Over a list of date-valid event items the materializer loop succeeds
and appends exactly the rows of the items that also carry `title` and
`event_type`; items missing either key are skipped in place. -/
theorem matEvents_keeps (items : List Json) : ∀ db : DB,
    (∀ ev ∈ items, dateOkB ev = true) →
    matEvents db items =
      .ok { db with events := db.events ++ (items.filter wfEvItemB).map mkEventRec } := by
  induction items with
  | nil =>
    intro db h
    simp [matEvents]
  | cons ev rest ih =>
    intro db h
    have hd := h ev (by simp)
    have hwd := dateOkB_wfEvDateB ev hd
    by_cases hw : wfEvItemB ev = true
    · have hw2 := hw
      simp only [wfEvItemB, Bool.and_eq_true] at hw2
      have hstep := mkEventStep_wf ev hd hw2.1.2 hw2.2
      have hrec := ih { db with events := db.events ++ [mkEventRec ev] }
        (fun x hx => h x (by simp [hx]))
      simp [matEvents, hstep, hrec, List.filter_cons, hw]
    · have hwF : wfEvItemB ev = false := by
        revert hw; cases wfEvItemB ev <;> simp
      have hk : (hasKey ev ("title").data && hasKey ev ("event_type").data) = false := by
        cases hkk : (hasKey ev ("title").data && hasKey ev ("event_type").data) with
        | false => rfl
        | true =>
          obtain ⟨ht, he⟩ : hasKey ev ("title").data = true ∧
              hasKey ev ("event_type").data = true := by simpa using hkk
          exact absurd (show wfEvItemB ev = true by simp [wfEvItemB, hwd, ht, he]) hw
      have hstep := mkEventStep_skip ev hd hk
      have hrec := ih db (fun x hx => h x (by simp [hx]))
      simp [matEvents, hstep, hrec, List.filter_cons, hwF]

/-- The pipeline result, when every stage payload parses to the shape the
stages expect: the summarizer bundle as parsed, the flashcard and
question payloads read with their empty default, and the events filtered
by date validity. -/
theorem process_note_eq (r1 r2 r3 r4 : List Char)
    (h1 : isObjB (parse_json_response r1) = true)
    (hkc : conceptsOkB (getFieldD (parse_json_response r1) ("key_concepts").data) = true)
    (h2 : isObjB (parse_json_response r2) = true)
    (h3 : isObjB (parse_json_response r3) = true)
    (h4 : wfListField (parse_json_response r4) ("events").data wfEvDateB = true) :
    process_note r1 r2 r3 r4 = .ok
      ⟨parse_json_response r1,
       getFieldD (parse_json_response r2) ("flashcards").data,
       getFieldD (parse_json_response r3) ("questions").data,
       (fieldItems (parse_json_response r4) ("events").data).filter dateOkB⟩ := by
  have e1 := getD_objB (parse_json_response r1) ("key_concepts").data h1
  have e2 := conceptsCheck_ok _ hkc
  have e3 := getD_objB (parse_json_response r2) ("flashcards").data h2
  have e4 := getD_objB (parse_json_response r3) ("questions").data h3
  obtain ⟨e5, hitems⟩ := getD_field (parse_json_response r4) ("events").data wfEvDateB h4
  have e7 := validEventsLoop_filter (fieldItems (parse_json_response r4) ("events").data) hitems
  simp [process_note, e1, e2, e3, e4, e5, e7, Json.iterate, Bind.bind, Except.bind,
    Pure.pure, Except.pure]

/-- A stage payload well-formed for a stronger item predicate is
well-formed for a weaker one. -/
theorem wfListField_mono (p : Json) (field : List Char) (po qo : Json → Bool)
    (hmono : ∀ x, po x = true → qo x = true) (h : wfListField p field po = true) :
    wfListField p field qo = true := by
  simp only [wfListField, Bool.and_eq_true] at h ⊢
  refine ⟨h.1, ?_⟩
  have h2 := h.2
  cases hg : getOpt p field with
  | none => simp
  | some v =>
    rw [hg] at h2
    cases v with
    | arr l =>
      rw [List.all_eq_true] at h2 ⊢
      exact fun x hx => hmono x (h2 x hx)
    | null => simp at h2
    | bool b => simp at h2
    | num n => simp at h2
    | str s => simp at h2
    | obj g => simp at h2

/-- C1 amended: a run whose four completions all return and whose parsed
payloads are shape-well-formed (summarizer bundle carries its three
fields with an interpolable `key_concepts`; flashcard/question items are
objects with their required keys; event items are objects whose `date`,
if present and truthy, is a string) reaches `completed` with the
processed timestamp stamped — a date-valid event item missing `title` or
`event_type` is skipped by the materializer, not fatal.  Without the
shape conditions the run can fail on malformed model output (see the
counterexample), so "regardless of the content of the completions" does
not hold. -/
theorem C1_corrected_wellformed_completes (db : DB) (r1 r2 r3 r4 : List Char) (now : Nat)
    (h1 : wfSummOut (parse_json_response r1) = true)
    (h2 : wfListField (parse_json_response r2) ("flashcards").data wfFcItemB = true)
    (h3 : wfListField (parse_json_response r3) ("questions").data wfQItemB = true)
    (h4 : wfListField (parse_json_response r4) ("events").data wfEvDateB = true) :
    (process_note_task db r1 r2 r3 r4 now).note.status = .completed ∧
    (process_note_task db r1 r2 r3 r4 now).note.processed_at = some now := by
  obtain ⟨hobj1, -, -, -, hkc⟩ := wfSummOut_parts _ h1
  have hobj2 : isObjB (parse_json_response r2) = true := by
    have := h2
    simp only [wfListField, Bool.and_eq_true] at this
    exact this.1
  have hobj3 : isObjB (parse_json_response r3) = true := by
    have := h3
    simp only [wfListField, Bool.and_eq_true] at this
    exact this.1
  have hp := process_note_eq r1 r2 r3 r4 hobj1 hkc hobj2 hobj3 h4
  have hm := matNoteFields_ok db (parse_json_response r1) h1
  obtain ⟨e3, hfcwf⟩ := getD_field (parse_json_response r2) ("flashcards").data wfFcItemB h2
  obtain ⟨e4, hqwf⟩ := getD_field (parse_json_response r3) ("questions").data wfQItemB h3
  have hgf2 : getFieldD (parse_json_response r2) ("flashcards").data =
      Json.arr (fieldItems (parse_json_response r2) ("flashcards").data) := by
    have hx := getD_objB (parse_json_response r2) ("flashcards").data hobj2
    rw [hx] at e3
    exact (Except.ok.injEq _ _).mp e3
  have hgf3 : getFieldD (parse_json_response r3) ("questions").data =
      Json.arr (fieldItems (parse_json_response r3) ("questions").data) := by
    have hx := getD_objB (parse_json_response r3) ("questions").data hobj3
    rw [hx] at e4
    exact (Except.ok.injEq _ _).mp e4
  have hfc : ∀ dbx : DB,
      matFlashcards dbx (fieldItems (parse_json_response r2) ("flashcards").data) =
        .ok { dbx with flashcards := dbx.flashcards ++
          (fieldItems (parse_json_response r2) ("flashcards").data).map mkFlashRec } :=
    fun dbx => matFlashcards_ok _ dbx hfcwf
  have hq : ∀ dbx : DB,
      matQuestions dbx (fieldItems (parse_json_response r3) ("questions").data) =
        .ok { dbx with study_questions := dbx.study_questions ++
          (fieldItems (parse_json_response r3) ("questions").data).map mkQuestionRec } :=
    fun dbx => matQuestions_ok _ dbx hqwf
  have hev : ∀ dbx : DB,
      matEvents dbx ((fieldItems (parse_json_response r4) ("events").data).filter dateOkB) =
        .ok { dbx with events := dbx.events ++
          ((((fieldItems (parse_json_response r4) ("events").data).filter
              dateOkB).filter wfEvItemB).map mkEventRec) } :=
    fun dbx => matEvents_keeps _ dbx (fun ev hx => (List.mem_filter.mp hx).2)
  have ht : (process_note_task db r1 r2 r3 r4 now).note.status = .completed ∧
      (process_note_task db r1 r2 r3 r4 now).note.processed_at = some now := by
    simp only [process_note_task, hp, hm, hgf2, hgf3, Json.iterate, hfc, hq, hev]
    exact ⟨trivial, trivial⟩
  exact ht

set_option maxRecDepth 8000 in
/-- C1 witness: with four shape-well-formed completions the run
completes and stamps the processed timestamp. -/
theorem C1_witness :
    (process_note_task uploadDB rSummGood rFcGood rQGood rEvGood 7).note.status = .completed ∧
    (process_note_task uploadDB rSummGood rFcGood rQGood rEvGood 7).note.processed_at = some 7 :=
  C1_corrected_wellformed_completes uploadDB rSummGood rFcGood rQGood rEvGood 7
    (by decide) (by decide) (by decide) (by decide)

set_option maxRecDepth 8000 in
/-- C1 counterexample: all four model calls return, the summarizer
completion is unparsable (the normalizer yields the empty dict), yet the
run ends `failed` — `result["processed_note"]["summary"]` raises
`KeyError` — refuting "the run reaches `completed` regardless of the
content of the completions". -/
theorem C1_counterexample_garbage_summary :
    parse_json_response ("garbage").data = Json.obj [] ∧
    (process_note_task uploadDB ("garbage").data rFcGood rQGood rEvGood 7).note.status =
      .failed ∧
    (process_note_task uploadDB ("garbage").data rFcGood rQGood rEvGood 7).note.error_message =
      some ((PyErr.msg (PyErr.keyError (("summary").data))).take 500) :=
  ⟨rfl, rfl, rfl⟩

/-- C5: a run whose flashcard completion the normalizer reduces to the
empty dict, while the other three stages return well-formed output,
still completes: zero flashcards, with the summary, the mapped study
questions, and the mapped date-valid events materialized. -/
theorem C5_flashcard_garbage_isolated (db : DB) (r1 r2 r3 r4 : List Char) (now : Nat)
    (h2 : parse_json_response r2 = Json.obj [])
    (h1 : wfSummOut (parse_json_response r1) = true)
    (h3 : wfListField (parse_json_response r3) ("questions").data wfQItemB = true)
    (h4 : wfListField (parse_json_response r4) ("events").data wfEvItemB = true) :
    (process_note_task db r1 r2 r3 r4 now).note.status = .completed ∧
    (process_note_task db r1 r2 r3 r4 now).flashcards = db.flashcards ∧
    (process_note_task db r1 r2 r3 r4 now).note.processed_summary =
      some (getKey (parse_json_response r1) ("summary").data) ∧
    (process_note_task db r1 r2 r3 r4 now).study_questions =
      db.study_questions ++
        (fieldItems (parse_json_response r3) ("questions").data).map mkQuestionRec ∧
    (process_note_task db r1 r2 r3 r4 now).events =
      db.events ++
        ((fieldItems (parse_json_response r4) ("events").data).filter dateOkB).map mkEventRec := by
  obtain ⟨hobj1, -, -, -, hkc⟩ := wfSummOut_parts _ h1
  have hobj2 : isObjB (parse_json_response r2) = true := by rw [h2]; rfl
  have hobj3 : isObjB (parse_json_response r3) = true := by
    have := h3
    simp only [wfListField, Bool.and_eq_true] at this
    exact this.1
  have h4w : wfListField (parse_json_response r4) ("events").data wfEvDateB = true :=
    wfListField_mono _ _ _ _
      (fun x hx => by
        simp only [wfEvItemB, Bool.and_eq_true] at hx
        exact hx.1.1) h4
  have hp := process_note_eq r1 r2 r3 r4 hobj1 hkc hobj2 hobj3 h4w
  have hm := matNoteFields_ok db (parse_json_response r1) h1
  obtain ⟨e4, hqwf⟩ := getD_field (parse_json_response r3) ("questions").data wfQItemB h3
  obtain ⟨e5, hevwf⟩ := getD_field (parse_json_response r4) ("events").data wfEvItemB h4
  have hitems2 : fieldItems (parse_json_response r2) ("flashcards").data = [] := by
    rw [h2]
    rfl
  have hgf2 : getFieldD (parse_json_response r2) ("flashcards").data = Json.arr [] := by
    rw [h2]
    rfl
  have hgf3 : getFieldD (parse_json_response r3) ("questions").data =
      Json.arr (fieldItems (parse_json_response r3) ("questions").data) := by
    have hx := getD_objB (parse_json_response r3) ("questions").data hobj3
    rw [hx] at e4
    exact (Except.ok.injEq _ _).mp e4
  have hfc : ∀ dbx : DB, matFlashcards dbx [] = .ok dbx := fun dbx => rfl
  have hq : ∀ dbx : DB,
      matQuestions dbx (fieldItems (parse_json_response r3) ("questions").data) =
        .ok { dbx with study_questions := dbx.study_questions ++
          (fieldItems (parse_json_response r3) ("questions").data).map mkQuestionRec } :=
    fun dbx => matQuestions_ok _ dbx hqwf
  have hev : ∀ dbx : DB,
      matEvents dbx ((fieldItems (parse_json_response r4) ("events").data).filter dateOkB) =
        .ok { dbx with events := dbx.events ++
          ((fieldItems (parse_json_response r4) ("events").data).filter dateOkB).map mkEventRec } :=
    fun dbx => matEvents_ok _ dbx (fun ev hx => by
      have hmem := (List.mem_filter.mp hx).1
      have hok := (List.mem_filter.mp hx).2
      have hw := hevwf ev hmem
      simp only [wfEvItemB, Bool.and_eq_true] at hw
      exact ⟨hok, hw.1.2, hw.2⟩)
  refine ⟨?_, ?_, ?_, ?_, ?_⟩ <;>
    simp [process_note_task, hp, hm, hgf2, hgf3, Json.iterate, hfc, hq, hev]

set_option maxRecDepth 8000 in
/-- C5 witness: a concrete garbage flashcard completion alongside
well-formed summarizer/question/event completions completes with zero
flashcards and one question and one event materialized. -/
theorem C5_witness :
    (process_note_task uploadDB rSummGood ("total garbage no braces").data rQGood rEvGood
      7).note.status = .completed ∧
    (process_note_task uploadDB rSummGood ("total garbage no braces").data rQGood rEvGood
      7).flashcards = [] ∧
    (process_note_task uploadDB rSummGood ("total garbage no braces").data rQGood rEvGood
      7).study_questions.length = 1 ∧
    (process_note_task uploadDB rSummGood ("total garbage no braces").data rQGood rEvGood
      7).events.length = 1 := by
  have h := C5_flashcard_garbage_isolated uploadDB rSummGood
    ("total garbage no braces").data rQGood rEvGood 7 rfl (by decide) (by decide) (by decide)
  exact ⟨h.1, h.2.1, by decide, by decide⟩

/-! ## C7: the normalizer round-trips the canonical serialization -/

/-- Skipping whitespace over a non-whitespace head is the identity. -/
theorem skipWs_cons_of_not_ws (c : Char) (cs : List Char) (h : isWs c = false) :
    skipWs (c :: cs) = c :: cs := by
  simp [skipWs, h]

/-- A leading blank is skipped. -/
theorem skipWs_space (cs : List Char) : skipWs (' ' :: cs) = skipWs cs := by
  simp [skipWs, isWs]

/-- The value parser ignores a leading blank. -/
theorem parseVal_space (fuel : Nat) (cs : List Char) :
    parseVal fuel (' ' :: cs) = parseVal fuel cs := by
  cases fuel with
  | zero => rfl
  | succ f => simp only [parseVal, skipWs_space]

/-- The element parser ignores a leading blank. -/
theorem parseElems_space (fuel : Nat) (cs : List Char) :
    parseElems fuel (' ' :: cs) = parseElems fuel cs := by
  cases fuel with
  | zero => rfl
  | succ f => simp only [parseElems, parseVal_space]

/-- The member parser ignores a leading blank. -/
theorem parseMembers_space (fuel : Nat) (cs : List Char) :
    parseMembers fuel (' ' :: cs) = parseMembers fuel cs := by
  cases fuel with
  | zero => rfl
  | succ f => simp only [parseMembers, skipWs_space]

/-- The string-body parser inverts the string-body serializer on
control-character-free strings. -/
theorem parseStrBody_ser (s : List Char) (h : ∀ c ∈ s, 32 ≤ c.toNat) :
    ∀ rest, parseStrBody (serStrChars s ++ '"' :: rest) = some (s, rest) := by
  induction s with
  | nil =>
    intro rest
    simp only [serStrChars, List.nil_append]
    unfold parseStrBody
    simp
  | cons c cs ih =>
    intro rest
    have hc := h c (by simp)
    have ihr := ih (fun x hx => h x (by simp [hx])) rest
    by_cases h1 : c = '"'
    · subst h1
      simp [serStrChars, escChar, parseStrBody, unescape, ihr]
    · by_cases h2 : c = Char.ofNat 92
      · subst h2
        simp [serStrChars, escChar, parseStrBody, unescape, ihr]
      · have h3 : ¬ c.toNat < 32 := by omega
        have hser : serStrChars (c :: cs) = c :: serStrChars cs := by
          simp [serStrChars, escChar, h1, h2]
        rw [hser, List.cons_append]
        unfold parseStrBody
        simp [h1, h2, h3, ihr]

/-- Numeric bounds of a digit character. -/
theorem digit_bounds (c : Char) (h : c.isDigit = true) : 48 ≤ c.toNat ∧ c.toNat ≤ 57 := by
  simp [Char.isDigit, Char.le_def] at h
  exact ⟨h.1, h.2⟩

/-- A digit character is none of the parser's dispatch characters. -/
theorem digit_ne (c : Char) (h : c.isDigit = true) :
    c ≠ 'n' ∧ c ≠ 't' ∧ c ≠ 'f' ∧ c ≠ '"' ∧ c ≠ '[' ∧ c ≠ '{' ∧ c ≠ '-' ∧
    c ≠ ']' ∧ c ≠ '}' ∧ c ≠ '`' ∧ isWs c = false := by
  have hne : ∀ x : Char, x.isDigit = false → c ≠ x := by
    intro x hx he
    subst he
    rw [h] at hx
    cases hx
  refine ⟨hne 'n' (by decide), hne 't' (by decide), hne 'f' (by decide), hne '"' (by decide),
    hne '[' (by decide), hne '{' (by decide), hne '-' (by decide), hne ']' (by decide),
    hne '}' (by decide), hne '`' (by decide), ?_⟩
  simp [isWs, hne ' ' (by decide), hne '\t' (by decide), hne '\n' (by decide),
    hne '\x0d' (by decide), hne '\x0b' (by decide), hne '\x0c' (by decide)]

/-- The digit characters of a nonzero number's decimal form. -/
theorem serNat_facts (n : Nat) :
    serNat n ≠ [] ∧ ∀ c ∈ serNat n, c.isDigit = true := by
  by_cases h0 : n = 0
  · subst h0
    refine ⟨by decide, ?_⟩
    intro c hc
    simp [serNat] at hc
    subst hc
    decide
  · constructor
    · simp only [serNat, if_neg h0]
      simp [Nat.digits_ne_nil_iff_ne_zero, h0]
    · intro c hc
      simp only [serNat, if_neg h0, List.mem_reverse, List.mem_map] at hc
      obtain ⟨d, hd, rfl⟩ := hc
      have hlt : d < 10 := Nat.digits_lt_base (by norm_num) hd
      interval_cases d <;> decide

/-- Splitting `takeWhile`/`dropWhile` at an all-true prefix followed by a
false head. -/
theorem takeWhile_append_all (p : Char → Bool) (xs ys : List Char)
    (hx : ∀ x ∈ xs, p x = true) (hy : ∀ y r, ys = y :: r → p y = false) :
    (xs ++ ys).takeWhile p = xs ∧ (xs ++ ys).dropWhile p = ys := by
  induction xs with
  | nil =>
    cases ys with
    | nil => simp
    | cons y r =>
      have := hy y r rfl
      simp [List.takeWhile, List.dropWhile, this]
  | cons x xs ih =>
    have hpx := hx x (by simp)
    obtain ⟨ih1, ih2⟩ := ih (fun a ha => hx a (by simp [ha]))
    simp [List.takeWhile, List.dropWhile, hpx, ih1, ih2]

/-- Folding decimal digits most-significant-first reconstructs the
number. -/
theorem foldl_digits_acc (ds : List Nat) : ∀ acc : Nat,
    ds.reverse.foldl (fun a d => a * 10 + d) acc =
      acc * 10 ^ ds.length + Nat.ofDigits 10 ds := by
  induction ds with
  | nil => intro acc; simp [Nat.ofDigits]
  | cons d ds ih =>
    intro acc
    rw [List.reverse_cons, List.foldl_append, ih acc]
    simp only [List.foldl_cons, List.foldl_nil, Nat.ofDigits_cons, List.length_cons]
    ring

/-- The digit parser inverts `serNat` when the remainder does not begin
with a digit. -/
theorem parseDigits_serNat (n : Nat) (rest : List Char)
    (hrest : ∀ y r, rest = y :: r → y.isDigit = false) :
    parseDigits (serNat n ++ rest) = some (n, rest) := by
  obtain ⟨hne, hdig⟩ := serNat_facts n
  obtain ⟨htake, hdrop⟩ := takeWhile_append_all Char.isDigit (serNat n) rest hdig hrest
  have hval : (serNat n).foldl (fun a c => a * 10 + digitVal c) 0 = n := by
    by_cases h0 : n = 0
    · subst h0
      decide
    · simp only [serNat, if_neg h0]
      have hmap : ((Nat.digits 10 n).map (fun d => Char.ofNat (48 + d))).reverse =
          ((Nat.digits 10 n).reverse.map (fun d => Char.ofNat (48 + d))) := by
        rw [List.map_reverse]
      rw [hmap, List.foldl_map]
      have hfold : (Nat.digits 10 n).reverse.foldl
          (fun a d => a * 10 + digitVal (Char.ofNat (48 + d))) 0 =
          (Nat.digits 10 n).reverse.foldl (fun a d => a * 10 + d) 0 := by
        apply List.foldl_ext
        intro a d hd
        have hmem : d ∈ Nat.digits 10 n := List.mem_reverse.mp hd
        have hlt : d < 10 := Nat.digits_lt_base (by norm_num) hmem
        have : digitVal (Char.ofNat (48 + d)) = d := by interval_cases d <;> decide
        rw [this]
      rw [hfold, foldl_digits_acc]
      simp [Nat.ofDigits_digits]
  simp only [parseDigits, htake, hdrop]
  rw [if_neg hne]
  rw [hval]

/-- The first character of any serialization is not whitespace, not a
closing bracket, and not a backtick. -/
theorem serJson_head (v : Json) :
    ∃ c r, serJson v = c :: r ∧ isWs c = false ∧ c ≠ ']' ∧ c ≠ '`' := by
  cases v with
  | null => refine ⟨'n', _, rfl, ?_, ?_, ?_⟩ <;> decide
  | bool b =>
    cases b with
    | true => refine ⟨'t', _, rfl, ?_, ?_, ?_⟩ <;> decide
    | false => refine ⟨'f', _, rfl, ?_, ?_, ?_⟩ <;> decide
  | num n =>
    by_cases hn : n < 0
    · refine ⟨'-', serNat n.natAbs, ?_, by decide, by decide, by decide⟩
      simp [serJson, serInt, hn]
    · obtain ⟨hne, hdig⟩ := serNat_facts n.natAbs
      cases hl : serNat n.natAbs with
      | nil => exact absurd hl hne
      | cons c r =>
        have hc := hdig c (by rw [hl]; simp)
        obtain ⟨-, -, -, -, -, -, -, hr1, -, hr3, hr4⟩ := digit_ne c hc
        refine ⟨c, r, ?_, hr4, hr1, hr3⟩
        simp [serJson, serInt, hn, hl]
  | str s => refine ⟨'"', _, rfl, ?_, ?_, ?_⟩ <;> decide
  | arr l =>
    cases l with
    | nil => refine ⟨'[', _, rfl, ?_, ?_, ?_⟩ <;> decide
    | cons x xs => refine ⟨'[', _, rfl, ?_, ?_, ?_⟩ <;> decide
  | obj f =>
    cases f with
    | nil => refine ⟨'{', _, rfl, ?_, ?_, ?_⟩ <;> decide
    | cons p ps => refine ⟨'{', _, rfl, ?_, ?_, ?_⟩ <;> decide

/-- The last character of any serialization is not whitespace and not a
backtick. -/
theorem serJson_last (v : Json) :
    ∃ d, (serJson v).getLast? = some d ∧ isWs d = false ∧ d ≠ '`' := by
  cases v with
  | null => exact ⟨'l', rfl, by decide, by decide⟩
  | bool b =>
    cases b with
    | true => exact ⟨'e', rfl, by decide, by decide⟩
    | false => exact ⟨'e', rfl, by decide, by decide⟩
  | num n =>
    obtain ⟨hne, hdig⟩ := serNat_facts n.natAbs
    have hex : ∃ d, (serNat n.natAbs).getLast? = some d ∧ d ∈ serNat n.natAbs := by
      cases hl : serNat n.natAbs with
      | nil => exact absurd hl hne
      | cons c r =>
        refine ⟨(c :: r).getLast (by simp), ?_, List.getLast_mem _⟩
        simp [List.getLast?_eq_getLast]
    obtain ⟨d, hd, hmem⟩ := hex
    have hdd := hdig d hmem
    obtain ⟨-, -, -, -, -, -, -, -, -, hr3, hr4⟩ := digit_ne d hdd
    refine ⟨d, ?_, hr4, hr3⟩
    by_cases hn : n < 0
    · simp only [serJson, serInt, if_pos hn]
      rw [List.getLast?_cons]
      rw [hd]
      cases hl : serNat n.natAbs with
      | nil => exact absurd hl hne
      | cons c r => rw [hl] at hd; simp [hd]
    · simp only [serJson, serInt, if_neg hn]
      exact hd
  | str s =>
    refine ⟨'"', ?_, by decide, by decide⟩
    show (serStr s).getLast? = some '"'
    rw [show serStr s = ('"' :: serStrChars s) ++ ['"'] by simp [serStr]]
    exact List.getLast?_concat _
  | arr l =>
    cases l with
    | nil => exact ⟨']', rfl, by decide, by decide⟩
    | cons x xs =>
      refine ⟨']', ?_, by decide, by decide⟩
      show (serJson (Json.arr (x :: xs))).getLast? = some ']'
      rw [show serJson (Json.arr (x :: xs)) =
        ('[' :: (serJson x ++ serElems xs)) ++ [']'] by simp [serJson]]
      exact List.getLast?_concat _
  | obj f =>
    cases f with
    | nil => exact ⟨'}', rfl, by decide, by decide⟩
    | cons p ps =>
      refine ⟨'}', ?_, by decide, by decide⟩
      show (serJson (Json.obj (p :: ps))).getLast? = some '}'
      rw [show serJson (Json.obj (p :: ps)) =
        ('{' :: (serStr p.1 ++ ':' :: ' ' :: serJson p.2 ++ serFields ps)) ++ ['}'] by
          simp [serJson]]
      exact List.getLast?_concat _

/-- Stripping is the identity on a string with non-whitespace ends. -/
theorem pyStrip_eq_self (l : List Char) (c : Char) (r : List Char) (hl : l = c :: r)
    (hc : isWs c = false) (d : Char) (hd : l.getLast? = some d) (hdw : isWs d = false) :
    pyStrip l = l := by
  have h1 : l.dropWhile isWs = l := by
    rw [hl]
    simp [List.dropWhile, hc]
  have hrev : ∃ r', l.reverse = d :: r' := by
    have hh := List.head?_reverse l
    rw [hd] at hh
    cases hr : l.reverse with
    | nil => rw [hr] at hh; simp at hh
    | cons a b =>
      rw [hr] at hh
      simp at hh
      exact ⟨b, by rw [hh]⟩
  obtain ⟨r', hr'⟩ := hrev
  have h2 : l.reverse.dropWhile isWs = l.reverse := by
    rw [hr']
    simp [List.dropWhile, hdw]
  simp only [pyStrip, h1, h2, List.reverse_reverse]

/-- Neither fence marker is a prefix of a string that does not start
with a backtick. -/
theorem fence_prefix_false (l : List Char) (c : Char) (r : List Char) (hl : l = c :: r)
    (hc : c ≠ '`') :
    (("```json").data.isPrefixOf l) = false ∧ (("```").data.isPrefixOf l) = false := by
  subst hl
  constructor <;>
    (simp [List.isPrefixOf, beq_iff_eq]
     intro he
     exact absurd he.symm hc)

/-- The closing fence is not a suffix of a string that does not end with
a backtick. -/
theorem fence_suffix_false (l : List Char) (d : Char) (hd : l.getLast? = some d)
    (hne : d ≠ '`') : (("```").data.isSuffixOf l) = false := by
  have hrev : ∃ r', l.reverse = d :: r' := by
    have hh := List.head?_reverse l
    rw [hd] at hh
    cases hr : l.reverse with
    | nil => rw [hr] at hh; simp at hh
    | cons a b =>
      rw [hr] at hh
      simp at hh
      exact ⟨b, by rw [hh]⟩
  obtain ⟨r', hr'⟩ := hrev
  show (("```").data.reverse.isPrefixOf l.reverse) = false
  rw [hr']
  simp [List.isPrefixOf, beq_iff_eq]
  intro he
  exact absurd he.symm hne

/-- Round trip for the comma-separated elements of a nonempty array,
assuming the round trip for each element. -/
theorem parseElems_ser (l : List Json)
    (hRT : ∀ j ∈ l, Json.wfB j = true → ∀ fuel, needed j ≤ fuel → ∀ rest,
      (∀ y r, rest = y :: r → y.isDigit = false) →
      parseVal fuel (serJson j ++ rest) = some (j, rest))
    (hwf : Json.wfList l = true) (hl : l ≠ []) :
    ∀ fuel, neededElems l ≤ fuel → ∀ rest,
      parseElems fuel (serSeq l ++ ']' :: rest) = some (l, rest) := by
  induction l with
  | nil => exact absurd rfl hl
  | cons v vs ih =>
    intro fuel hfuel rest
    have hnv : needed v ≤ neededElems (v :: vs) := by
      simp only [neededElems]
      omega
    cases fuel with
    | zero => simp [neededElems] at hfuel
    | succ f =>
      have hwfv : Json.wfB v = true := by
        simp only [Json.wfList, Bool.and_eq_true] at hwf
        exact hwf.1
      have hwfvs : Json.wfList vs = true := by
        simp only [Json.wfList, Bool.and_eq_true] at hwf
        exact hwf.2
      have hshape : serSeq (v :: vs) ++ ']' :: rest =
          serJson v ++ (serElems vs ++ ']' :: rest) := by
        simp [serSeq, List.append_assoc]
      have hbnd : ∀ y r, serElems vs ++ ']' :: rest = y :: r → y.isDigit = false := by
        cases vs with
        | nil =>
          intro y r hyr
          simp only [serElems, List.nil_append, List.cons.injEq] at hyr
          rw [← hyr.1]
          decide
        | cons w ws =>
          intro y r hyr
          simp only [serElems, List.cons_append, List.cons.injEq] at hyr
          rw [← hyr.1]
          decide
      have hv := hRT v (by simp) hwfv f (by simp only [neededElems] at hfuel; omega)
        (serElems vs ++ ']' :: rest) hbnd
      rw [hshape]
      simp only [parseElems, hv]
      cases vs with
      | nil =>
        simp [serElems, skipWs_cons_of_not_ws, isWs]
      | cons w ws =>
        have hx : serElems (w :: ws) ++ ']' :: rest =
            ',' :: ' ' :: (serSeq (w :: ws) ++ ']' :: rest) := by
          simp [serElems, serSeq, List.append_assoc]
        rw [hx]
        rw [skipWs_cons_of_not_ws ',' _ (by decide)]
        have hih := ih (fun j hj => hRT j (by simp [hj])) hwfvs (by simp) f
          (by simp only [neededElems] at hfuel ⊢; omega) rest
        simp only [parseElems_space, hih]

/-- Round trip for the comma-separated members of a nonempty object,
assuming the round trip for each member value. -/
theorem parseMembers_ser (l : List (List Char × Json))
    (hRT : ∀ p ∈ l, Json.wfB p.2 = true → ∀ fuel, needed p.2 ≤ fuel → ∀ rest,
      (∀ y r, rest = y :: r → y.isDigit = false) →
      parseVal fuel (serJson p.2 ++ rest) = some (p.2, rest))
    (hwf : Json.wfFields l = true) (hl : l ≠ []) :
    ∀ fuel, neededMembers l ≤ fuel → ∀ rest,
      parseMembers fuel (serMem l ++ '}' :: rest) = some (l, rest) := by
  induction l with
  | nil => exact absurd rfl hl
  | cons p ps ih =>
    intro fuel hfuel rest
    cases fuel with
    | zero => simp [neededMembers] at hfuel
    | succ f =>
      obtain ⟨hwfk, hwfv, hwfps⟩ : (p.1.all (fun c => 32 ≤ c.toNat)) = true ∧
          Json.wfB p.2 = true ∧ Json.wfFields ps = true := by
        have := hwf
        cases p with
        | mk k v =>
          simp only [Json.wfFields, Bool.and_eq_true] at this
          exact ⟨this.1.1, this.1.2, this.2⟩
      have hshape : serMem (p :: ps) ++ '}' :: rest =
          '"' :: ((serStrChars p.1 ++ '"' :: (':' :: ' ' ::
            (serJson p.2 ++ (serFields ps ++ '}' :: rest))))) := by
        simp [serMem, serStr, List.append_assoc]
      have hkey := parseStrBody_ser p.1
        (by rw [List.all_eq_true] at hwfk
            intro c hc
            exact of_decide_eq_true (hwfk c hc))
        (':' :: ' ' :: (serJson p.2 ++ (serFields ps ++ '}' :: rest)))
      have hbnd : ∀ y r, serFields ps ++ '}' :: rest = y :: r → y.isDigit = false := by
        cases ps with
        | nil =>
          intro y r hyr
          simp only [serFields, List.nil_append, List.cons.injEq] at hyr
          rw [← hyr.1]
          decide
        | cons q qs =>
          intro y r hyr
          simp only [serFields, List.cons_append, List.cons.injEq] at hyr
          rw [← hyr.1]
          decide
      have hv := hRT p (by simp) hwfv f (by simp only [neededMembers] at hfuel; omega)
        (serFields ps ++ '}' :: rest) hbnd
      rw [hshape]
      simp only [parseMembers]
      rw [skipWs_cons_of_not_ws '"' _ (by decide)]
      simp only [hkey]
      rw [skipWs_cons_of_not_ws ':' _ (by decide)]
      simp only [parseVal_space, hv]
      cases ps with
      | nil =>
        simp [serFields, skipWs_cons_of_not_ws, isWs]
      | cons q qs =>
        have hx : serFields (q :: qs) ++ '}' :: rest =
            ',' :: ' ' :: (serMem (q :: qs) ++ '}' :: rest) := by
          simp [serFields, serMem, List.append_assoc]
        rw [hx]
        rw [skipWs_cons_of_not_ws ',' _ (by decide)]
        have hih := ih (fun j hj => hRT j (by simp [hj])) hwfps (by simp) f
          (by simp only [neededMembers] at hfuel ⊢; omega) rest
        simp only [parseMembers_space, hih]

/-- The parser inverts the serializer on well-formed values, given
enough fuel and a non-digit continuation. -/
theorem parseVal_ser : ∀ v : Json, Json.wfB v = true →
    ∀ fuel, needed v ≤ fuel → ∀ rest, (∀ y r, rest = y :: r → y.isDigit = false) →
    parseVal fuel (serJson v ++ rest) = some (v, rest) := by
  refine Json.my_ind _ ?_ ?_ ?_ ?_ ?_ ?_
  · intro hwf fuel hfuel rest hrest
    cases fuel with
    | zero => simp [needed] at hfuel
    | succ f => rfl
  · intro b hwf fuel hfuel rest hrest
    cases fuel with
    | zero => simp [needed] at hfuel
    | succ f => cases b <;> rfl
  · intro n hwf fuel hfuel rest hrest
    cases fuel with
    | zero => simp [needed] at hfuel
    | succ f =>
      by_cases hn : n < 0
      · have hser : serJson (Json.num n) ++ rest = '-' :: (serNat n.natAbs ++ rest) := by
          simp [serJson, serInt, hn]
        rw [hser]
        have hpd := parseDigits_serNat n.natAbs rest hrest
        simp only [parseVal]
        rw [skipWs_cons_of_not_ws '-' _ (by decide)]
        simp [hpd]
        rw [abs_of_neg hn, neg_neg]
      · obtain ⟨hne, hdig⟩ := serNat_facts n.natAbs
        cases hl : serNat n.natAbs with
        | nil => exact absurd hl hne
        | cons c r =>
          have hcd : c.isDigit = true := hdig c (by rw [hl]; simp)
          obtain ⟨ne_n, ne_t, ne_f, ne_q, ne_lb, ne_ob, ne_m, -, -, -, hws⟩ := digit_ne c hcd
          have hser : serJson (Json.num n) ++ rest = c :: (r ++ rest) := by
            simp [serJson, serInt, hn, hl]
          rw [hser]
          simp only [parseVal]
          rw [skipWs_cons_of_not_ws c _ hws]
          have hpd := parseDigits_serNat n.natAbs rest hrest
          have hconv : c :: (r ++ rest) = serNat n.natAbs ++ rest := by
            rw [hl, List.cons_append]
          simp only [ne_n, ne_t, ne_f, ne_q, ne_lb, ne_ob, ne_m, hcd, if_false, if_true,
            ite_true, ite_false, if_neg, reduceIte]
          rw [hconv, hpd]
          have hval : ((n.natAbs : Nat) : Int) = n := by omega
          simp [hval]
  · intro s hwf fuel hfuel rest hrest
    cases fuel with
    | zero => simp [needed] at hfuel
    | succ f =>
      have hchars : ∀ c ∈ s, 32 ≤ c.toNat := by
        simp only [Json.wfB, List.all_eq_true] at hwf
        exact fun c hc => of_decide_eq_true (hwf c hc)
      have hb := parseStrBody_ser s hchars rest
      have hser : serJson (Json.str s) ++ rest = '"' :: (serStrChars s ++ '"' :: rest) := by
        simp [serJson, serStr, List.append_assoc]
      rw [hser]
      simp only [parseVal]
      rw [skipWs_cons_of_not_ws '"' _ (by decide)]
      simp [hb]
  · intro l hmem hwf fuel hfuel rest hrest
    cases l with
    | nil =>
      cases fuel with
      | zero => simp [needed] at hfuel
      | succ f => rfl
    | cons v vs =>
      cases fuel with
      | zero => simp [needed] at hfuel
      | succ f =>
        have hwfl : Json.wfList (v :: vs) = true := hwf
        obtain ⟨c, tail, hct, hcw, hcrb, -⟩ := serJson_head v
        have ht : serSeq (v :: vs) ++ ']' :: rest =
            c :: (tail ++ (serElems vs ++ ']' :: rest)) := by
          simp [serSeq, hct, List.append_assoc]
        have hfe : neededElems (v :: vs) ≤ f := by
          simp only [needed] at hfuel
          omega
        have hpe := parseElems_ser (v :: vs) (fun j hj => hmem j hj) hwfl (by simp) f hfe rest
        have hser : serJson (Json.arr (v :: vs)) ++ rest =
            '[' :: (serSeq (v :: vs) ++ ']' :: rest) := by
          simp [serJson, serSeq, List.append_assoc]
        rw [hser]
        simp only [parseVal]
        rw [skipWs_cons_of_not_ws '[' _ (by decide)]
        have hsk : skipWs (serSeq (v :: vs) ++ ']' :: rest) =
            serSeq (v :: vs) ++ ']' :: rest := by
          rw [ht]
          exact skipWs_cons_of_not_ws c _ hcw
        have hhd : (skipWs (serSeq (v :: vs) ++ ']' :: rest)).head? = some c := by
          rw [hsk, ht]
          rfl
        have hne2 : ((skipWs (serSeq (v :: vs) ++ ']' :: rest)).head? = some ']') = False := by
          rw [hhd]
          simp [hcrb]
        have hseq : serSeq (v :: vs) = c :: (tail ++ serElems vs) := by
          simp [serSeq, hct]
        simp [hne2, hsk, hpe]
        refine ⟨?_, ?_⟩ <;> rw [hseq]
        · simp [hcrb]
        · simp
  · intro fl hmem hwf fuel hfuel rest hrest
    cases fl with
    | nil =>
      cases fuel with
      | zero => simp [needed] at hfuel
      | succ f => rfl
    | cons p ps =>
      cases fuel with
      | zero => simp [needed] at hfuel
      | succ f =>
        have hwfl : Json.wfFields (p :: ps) = true := hwf
        have hfe : neededMembers (p :: ps) ≤ f := by
          simp only [needed] at hfuel
          omega
        have hpm := parseMembers_ser (p :: ps) (fun q hq => hmem q hq) hwfl (by simp) f hfe rest
        have hser : serJson (Json.obj (p :: ps)) ++ rest =
            '{' :: (serMem (p :: ps) ++ '}' :: rest) := by
          simp [serJson, serMem, serStr, List.append_assoc]
        rw [hser]
        simp only [parseVal]
        rw [skipWs_cons_of_not_ws '{' _ (by decide)]
        have hsk : skipWs (serMem (p :: ps) ++ '}' :: rest) =
            serMem (p :: ps) ++ '}' :: rest := by
          rw [show serMem (p :: ps) ++ '}' :: rest =
            '"' :: ((serStrChars p.1 ++ '"' :: (':' :: ' ' ::
              (serJson p.2 ++ (serFields ps ++ '}' :: rest))))) by
            simp [serMem, serStr, List.append_assoc]]
          exact skipWs_cons_of_not_ws '"' _ (by decide)
        have hhd : (skipWs (serMem (p :: ps) ++ '}' :: rest)).head? = some '"' := by
          rw [hsk]
          rw [show serMem (p :: ps) ++ '}' :: rest =
            '"' :: ((serStrChars p.1 ++ '"' :: (':' :: ' ' ::
              (serJson p.2 ++ (serFields ps ++ '}' :: rest))))) by
            simp [serMem, serStr, List.append_assoc]]
          rfl
        have hne2 : ((skipWs (serMem (p :: ps) ++ '}' :: rest)).head? = some '}') = False := by
          rw [hhd]
          simp
        have hm2 : serMem (p :: ps) =
            '"' :: (serStrChars p.1 ++ '"' :: (':' :: ' ' :: (serJson p.2 ++ serFields ps))) := by
          simp [serMem, serStr, List.append_assoc]
        simp [hne2, hsk, hpm]
        refine ⟨?_, ?_⟩ <;> rw [hm2]
        · simp
        · simp

/-- The fuel demanded by an element list is within its serialized length
plus one. -/
theorem neededElems_le (l : List Json) (h : ∀ j ∈ l, needed j ≤ (serJson j).length)
    (hne : l ≠ []) : neededElems l ≤ (serSeq l).length + 1 := by
  induction l with
  | nil => cases hne rfl
  | cons v vs ih =>
    have hv := h v (by simp)
    cases vs with
    | nil =>
      simp only [neededElems, serSeq, serElems, List.append_nil]
      omega
    | cons w ws =>
      have hih := ih (fun j hj => h j (by simp [hj])) (by simp)
      have hlen : (serSeq (v :: w :: ws)).length =
          (serJson v).length + 2 + (serSeq (w :: ws)).length := by
        simp [serSeq, serElems]
        omega
      simp only [neededElems] at hih ⊢
      omega

/-- The fuel demanded by a member list is within its serialized length
plus one. -/
theorem neededMembers_le (l : List (List Char × Json))
    (h : ∀ p ∈ l, needed p.2 ≤ (serJson p.2).length) (hne : l ≠ []) :
    neededMembers l ≤ (serMem l).length + 1 := by
  induction l with
  | nil => cases hne rfl
  | cons p ps ih =>
    have hv := h p (by simp)
    cases ps with
    | nil =>
      simp only [neededMembers, serMem, serFields, List.append_nil]
      simp only [List.length_append, List.length_cons]
      omega
    | cons q qs =>
      have hih := ih (fun j hj => h j (by simp [hj])) (by simp)
      have hlen : (serMem (p :: q :: qs)).length =
          (serStr p.1).length + 2 + (serJson p.2).length + 2 + (serMem (q :: qs)).length := by
        simp [serMem, serFields]
        omega
      simp only [neededMembers] at hih ⊢
      omega

/-- The fuel demanded by a value is within its serialized length. -/
theorem needed_le : ∀ v : Json, needed v ≤ (serJson v).length := by
  refine Json.my_ind _ ?_ ?_ ?_ ?_ ?_ ?_
  · simp [needed, serJson]
  · intro b
    cases b <;> simp [needed, serJson]
  · intro n
    have h1 := (serNat_facts n.natAbs).1
    have hpos : 1 ≤ (serNat n.natAbs).length := by
      cases hl : serNat n.natAbs with
      | nil => exact absurd hl h1
      | cons c r => simp
    by_cases hn : n < 0
    · simp only [needed, serJson, serInt, if_pos hn, List.length_cons]
      omega
    · simp only [needed, serJson, serInt, if_neg hn]
      omega
  · intro s
    simp [needed, serJson, serStr]
  · intro l hmem
    cases l with
    | nil => simp [needed, serJson]
    | cons v vs =>
      have he := neededElems_le (v :: vs) hmem (by simp)
      have hlen : (serJson (Json.arr (v :: vs))).length = (serSeq (v :: vs)).length + 2 := by
        simp [serJson, serSeq]
        omega
      simp only [needed]
      omega
  · intro f hmem
    cases f with
    | nil => simp [needed, serJson]
    | cons p ps =>
      have he := neededMembers_le (p :: ps) hmem (by simp)
      have hlen : (serJson (Json.obj (p :: ps))).length = (serMem (p :: ps)).length + 2 := by
        simp [serJson, serMem, serStr]
        omega
      simp only [needed]
      omega

/-- The modelled `json.loads` reads back the serialization of a well-formed value. -/
theorem json_loads_ser (v : Json) (h : Json.wfB v = true) :
    json_loads (serJson v) = some v := by
  have hfe : needed v ≤ (serJson v).length + 1 := Nat.le_succ_of_le (needed_le v)
  have hb := parseVal_ser v h ((serJson v).length + 1) hfe [] (fun y r hyr => by cases hyr)
  rw [List.append_nil] at hb
  simp [json_loads, hb, skipWs]

/-- C7: the normalizer is the identity on already-clean structured
input — normalizing the canonical serialization of any well-formed value
returns the value itself. -/
theorem C7_normalize_roundtrip (v : Json) (h : Json.wfB v = true) :
    parse_json_response (json_dumps v) = v := by
  obtain ⟨c, r, hct, hcw, -, hcbt⟩ := serJson_head v
  obtain ⟨d, hd, hdw, hdbt⟩ := serJson_last v
  have hstrip : pyStrip (serJson v) = serJson v := pyStrip_eq_self _ c r hct hcw d hd hdw
  obtain ⟨hpre1, hpre2⟩ := fence_prefix_false (serJson v) c r hct hcbt
  have hsuf := fence_suffix_false (serJson v) d hd hdbt
  have hload := json_loads_ser v h
  simp only [parse_json_response, json_dumps, hstrip, hpre1, hpre2, hsuf, Bool.false_eq_true,
    if_false, hload]

/-- C7 witness: a concrete nested value survives the round trip. -/
theorem C7_witness :
    Json.wfB (Json.obj [(("a").data, Json.num (-12)),
      (("b").data, Json.arr [Json.str ("x y").data, Json.bool true, Json.null])]) = true ∧
    parse_json_response (json_dumps (Json.obj [(("a").data, Json.num (-12)),
      (("b").data, Json.arr [Json.str ("x y").data, Json.bool true, Json.null])])) =
      Json.obj [(("a").data, Json.num (-12)),
        (("b").data, Json.arr [Json.str ("x y").data, Json.bool true, Json.null])] :=
  ⟨by decide, C7_normalize_roundtrip _ (by decide)⟩
